import Mathlib

/-! Verification development for `pkg/reviews/reviews.go`.

A shallow embedding of the review decoder (`Parse`), of the page decoder
(`batchexecute`) and of the pagination loop (`RunPaging`), followed by the
theorems settled about them.

Conventions of the embedding.

* A raw JSON document is a tree of type `JSON`.  The source passes documents
  around as Go strings holding JSON text and addresses them with dotted index
  paths such as `"7.2.0"`; here a path is the list of its indices, `[7, 2, 0]`.
  `batchexecute` hands `Parse` the text `review.String()` of each raw record,
  and `Parse` reads that text as JSON: here `Parse` receives the tree read from
  the text, which `recordText` gives for each raw record.
* The accessors of `internal/util` and `internal/parse` and the readings of a
  resolved value are not part of `reviews.go`; they are modelled from the
  specification and marked so.
* A Go run-time panic (index out of range) is the `error` side of
  `Except GoPanic`.
* The `for` loop of `RunPaging` has no bound in the source; it is embedded with
  a fuel argument, and a run that exhausts its fuel reports `Outcome.running`.
-/

namespace GooglePlayScraper

/-! ## JSON values and their readings -/

/-- A parsed JSON value of the positional wire format.  Numbers are the integer
literals of the wire format. -/
inductive JSON where
  | null : JSON
  | bool (b : Bool) : JSON
  | num (n : Int) : JSON
  | str (s : String) : JSON
  | arr (xs : List JSON) : JSON
  deriving Repr

/-- Two's complement wrap of an integer into the range of Go's `int64`. -/
def wrap64 (n : Int) : Int :=
  (n + 2 ^ 63) % 2 ^ 64 - 2 ^ 63

/-- Value of a non-empty run of decimal digits, `none` when the run is empty or
holds another character. -/
def digitsValue (cs : List Char) : Option Nat :=
  if cs.isEmpty then none
  else cs.foldl (fun acc c =>
    match acc with
    | some n => if c.isDigit then some (n * 10 + (c.toNat - 48)) else none
    | none => none) (some 0)

/-- Decimal integer literal with an optional sign, as accepted by Go's
`strconv.Atoi`; `none` when the text is not such a literal. -/
def decimal (s : String) : Option Int :=
  match s.data with
  | [] => none
  | c :: cs =>
    if c = '-' then (digitsValue cs).map (fun n => - (n : Int))
    else if c = '+' then (digitsValue cs).map (fun n => (n : Int))
    else (digitsValue (c :: cs)).map (fun n => (n : Int))

/-- Modelled from the spec: `parse.Int` and `parse.Int64` of `internal/parse`,
which are not among the sources.  The text is decoded as an integer; a missing
(empty) or non-numeric text, or a literal outside the 64-bit range, decodes to
zero. -/
def parseInt (s : String) : Int :=
  match decimal s with
  | some n => if - 2 ^ 63 ≤ n ∧ n < 2 ^ 63 then n else 0
  | none => 0

mutual
/-- Compact JSON text of a value: the raw text that the string reading returns
for a value that is not a string. -/
def JSON.raw : JSON → String
  | .null => "null"
  | .bool b => if b then "true" else "false"
  | .num n => toString n
  | .str s => "\"" ++ s ++ "\""
  | .arr xs => "[" ++ rawList xs ++ "]"
/-- Comma separated raw texts of the elements of an array. -/
def rawList : List JSON → String
  | [] => ""
  | [x] => x.raw
  | x :: y :: r => x.raw ++ "," ++ rawList (y :: r)
end

/-- Modelled from the spec: the string reading `String()` of a resolved value
(the library type behind `criterion` is not among the sources).  A string reads
as itself, a number as its decimal text, a nested array as its raw text, and
null as the empty string. -/
def JSON.asString : JSON → String
  | .null => ""
  | .str s => s
  | v => v.raw

/-- Modelled from the spec: the array reading `Array()` of a resolved value.
An array reads as its elements, null as the empty list and any other value as
the one-element list holding it. -/
def JSON.asArray : JSON → List JSON
  | .null => []
  | .arr xs => xs
  | v => [v]

/-- Modelled from the spec: the integer reading `Int()` of a resolved value,
an `int64`.  A number reads as itself, a string as the decimal integer it
spells (zero otherwise), true as one and anything else as zero. -/
def JSON.asInt : JSON → Int
  | .num n => wrap64 n
  | .str s => parseInt s
  | .bool true => 1
  | _ => 0

/-- Modelled from the spec: the PathAccessor `valueAt(root, path)` of
`internal/util`, which is not among the sources.  At each step the current
value must be an array and the index must be in bounds; otherwise the result
is absent. -/
def valueAt : JSON → List Nat → Option JSON
  | v, [] => some v
  | .arr xs, i :: p =>
    match xs.get? i with
    | some x => valueAt x p
    | none => none
  | _, _ :: _ => none

/-- Modelled from the spec: `util.GetJSONValue`, the scalar (string) reading of
the value at a path, with an absent path reading as the empty string. -/
def GetJSONValue (data : JSON) (path : List Nat) : String :=
  match valueAt data path with
  | some v => v.asString
  | none => ""

/-- Modelled from the spec: `util.GetJSONArray`, the sub-array reading of the
value at a path, with an absent path reading as the empty list. -/
def GetJSONArray (data : JSON) (path : List Nat) : List JSON :=
  match valueAt data path with
  | some v => v.asArray
  | none => []

/-! ## Go run-time values -/

/-- Run-time panics of the embedded code. -/
inductive GoPanic where
  | indexOutOfRange (index : Nat) (len : Nat) : GoPanic
  deriving DecidableEq, Repr

/-- Go slice indexing `xs[i]`: panics when the index is out of range. -/
def index (xs : List JSON) (i : Nat) : Except GoPanic JSON :=
  match xs.get? i with
  | some x => .ok x
  | none => .error (.indexOutOfRange i xs.length)

/-- A Go `map[string]int64`, kept as an association list. -/
abbrev GoMap := List (String × Int)

/-- Map assignment `m[k] = v`: overwrites the entry of `k` when there is one,
adds an entry otherwise. -/
def GoMap.set : GoMap → String → Int → GoMap
  | [], k, v => [(k, v)]
  | (k', v') :: m, k, v => if k' = k then (k', v) :: m else (k', v') :: GoMap.set m k v

/-- Map lookup `m[k]` with presence. -/
def GoMap.get? : GoMap → String → Option Int
  | [], _ => none
  | (k', v') :: m, k => if k' = k then some v' else GoMap.get? m k

/-- The keys of a map. -/
def GoMap.keys (m : GoMap) : List String :=
  m.map Prod.fst

/-- A `time.Time` as built by `time.Unix(sec, nsec)`. -/
structure Time where
  sec : Int
  nsec : Int
  deriving DecidableEq, Repr

/-- Go's `time.Unix`. -/
def Unix (sec : Int) (nsec : Int) : Time :=
  { sec := sec, nsec := nsec }

/-- Review of app. -/
structure Review where
  Avatar : String
  Criteria : GoMap
  ID : String
  Score : Int
  Reviewer : String
  Reply : String
  ReplyTimestamp : Time
  Respondent : String
  Text : String
  Timestamp : Time
  Useful : Int
  Version : String
  deriving DecidableEq, Repr

deriving instance DecidableEq for Except

/-! ## `Parse` -/

/-- The rating computed for one criterion (lines 133-136 of the source). -/
def criterionRating (criterion : JSON) : Except GoPanic Int :=
  if criterion.asArray.length > 2 then
    match index criterion.asArray 2 with
    | .error p => .error p
    | .ok third =>
      match index third.asArray 0 with
      | .error p => .error p
      | .ok first => .ok first.asInt
  else .ok 0

/-- The body of the loop over the criteria list (lines 133-137). -/
def criterionStep (criteria : GoMap) (criterion : JSON) : Except GoPanic GoMap :=
  match criterionRating criterion with
  | .error p => .error p
  | .ok rating =>
    match index criterion.asArray 0 with
    | .error p => .error p
    | .ok name => .ok (criteria.set name.asString rating)

/-- The loop over the criteria list (lines 132-138). -/
def criteriaLoop : List JSON → GoMap → Except GoPanic GoMap
  | [], criteria => .ok criteria
  | criterion :: rest, criteria =>
    match criterionStep criteria criterion with
    | .error p => .error p
    | .ok criteria' => criteriaLoop rest criteria'

/-- Parse app review: `none` is the nil result. -/
def Parse (review : JSON) : Except GoPanic (Option Review) :=
  let text := GetJSONValue review [4]
  if text ≠ "" then
    let criteriaList := GetJSONArray review [12, 0]
    match criteriaLoop criteriaList [] with
    | .error p => .error p
    | .ok criteria =>
      .ok (some
        { Avatar := GetJSONValue review [1, 1, 3, 2]
          Criteria := criteria
          ID := GetJSONValue review [0]
          Reply := GetJSONValue review [7, 1]
          ReplyTimestamp := Unix (parseInt (GetJSONValue review [7, 2, 0])) 0
          Respondent := GetJSONValue review [7, 0]
          Reviewer := GetJSONValue review [1, 0]
          Score := parseInt (GetJSONValue review [2])
          Text := text
          Timestamp := Unix (parseInt (GetJSONValue review [5, 0])) 0
          Useful := parseInt (GetJSONValue review [6])
          Version := GetJSONValue review [10] })
  else .ok none

/-- The name a criteria tuple carries: the string reading of its first
element (the empty string stands in when the tuple has no element). -/
def tupleName (tuple : JSON) : String :=
  match tuple.asArray.get? 0 with
  | some name => name.asString
  | none => ""

/-- The rating a criteria tuple carries in the words of the specification: the
integer at the first position of the third element when the tuple has more
than two elements, zero otherwise. -/
def tupleRating (tuple : JSON) : Int :=
  if tuple.asArray.length > 2 then
    match tuple.asArray.get? 2 with
    | some third =>
      match third.asArray.get? 0 with
      | some first => first.asInt
      | none => 0
    | none => 0
  else 0

/-! ## Requests -/

/-- Template of the first request (line 15). -/
def initialRequest : String :=
  "f.req=%5B%5B%5B%22UsvDTd%22%2C%22%5Bnull%2Cnull%2C%5B2%2C\x7b\x7bsort\x7d\x7d%2C%5B\x7b\x7bmaxNumberOfReviewsPerRequest\x7d\x7d%2Cnull%2Cnull%5D%2Cnull%2C%5B%5D%5D%2C%5B%5C%22\x7b\x7bappId\x7d\x7d%5C%22%2C7%5D%5D%22%2Cnull%2C%22generic%22%5D%5D%5D"

/-- Template of a continuation request (line 16). -/
def paginatedRequest : String :=
  "f.req=%5B%5B%5B%22UsvDTd%22%2C%22%5Bnull%2Cnull%2C%5B2%2C\x7b\x7bsort\x7d\x7d%2C%5B\x7b\x7bmaxNumberOfReviewsPerRequest\x7d\x7d%2Cnull%2C%5C%22\x7b\x7bwithToken\x7d\x7d%5C%22%5D%2Cnull%2C%5B%5D%5D%2C%5B%5C%22\x7b\x7bappId\x7d\x7d%5C%22%2C7%5D%5D%22%2Cnull%2C%22generic%22%5D%5D%5D"

/-- The most reviews one request asks for (line 17). -/
def maxNumberOfReviewsPerRequest : Int := 150

/-- Options of reviews.  `Sorting` is the integer code of a `store.Sort`. -/
structure Options where
  Country : String
  Language : String
  Number : Int
  Sorting : Int
  deriving DecidableEq, Repr

/-- Reviews instance. -/
structure Reviews where
  appID : String
  options : Options
  deriving DecidableEq, Repr

/-- Go's `strconv.Itoa`. -/
def Itoa (n : Int) : String :=
  toString n

/-- Whether the first list starts the second one. -/
def startsWith : List Char → List Char → Bool
  | [], _ => true
  | _ :: _, [] => false
  | a :: as, b :: bs => a == b && startsWith as bs

/-- The first pair, in argument order, whose old string starts the text. -/
def findOld : List (String × String) → List Char → Option (String × String)
  | [], _ => none
  | (old, new) :: rest, s =>
    if old.data ≠ [] ∧ startsWith old.data s = true then some (old, new)
    else findOld rest s

/-- Left to right replacement without overlap and without rescanning replaced
text; `skip` counts the characters of a matched old string still to drop. -/
def replaceFrom (pairs : List (String × String)) : List Char → Nat → List Char
  | [], _ => []
  | _ :: cs, skip + 1 => replaceFrom pairs cs skip
  | c :: cs, 0 =>
    match findOld pairs (c :: cs) with
    | some (old, new) => new.data ++ replaceFrom pairs cs (old.data.length - 1)
    | none => c :: replaceFrom pairs cs 0

/-- Go's `strings.NewReplacer(pairs...).Replace(s)` for non-empty old
strings. -/
def Replace (pairs : List (String × String)) (s : String) : String :=
  String.mk (replaceFrom pairs s.data 0)

/-- The payload of the first request (lines 100-104). -/
def initialPayload (reviews : Reviews) : String :=
  Replace [("\x7b\x7bsort\x7d\x7d", Itoa reviews.options.Sorting),
    ("\x7b\x7bmaxNumberOfReviewsPerRequest\x7d\x7d", Itoa reviews.options.Number),
    ("\x7b\x7bappId\x7d\x7d", reviews.appID)] initialRequest

/-- The payload of a continuation request (lines 117-122). -/
def paginatedPayload (reviews : Reviews) (token : String) : String :=
  Replace [("\x7b\x7bsort\x7d\x7d", Itoa reviews.options.Sorting),
    ("\x7b\x7bmaxNumberOfReviewsPerRequest\x7d\x7d", Itoa reviews.options.Number),
    ("\x7b\x7bwithToken\x7d\x7d", token),
    ("\x7b\x7bappId\x7d\x7d", reviews.appID)] paginatedRequest

/-! ## `batchexecute` -/

/-- The transport collaborator `util.BatchExecute`, which is external to the
package: from its own state, the country, the language and the payload it
gives its next state and either an error or the parsed response. -/
abbrev Transport (τ ε : Type) := τ → String → String → String → τ × Except ε JSON

/-- What `batchexecute` gives: an error of the transport, a run-time panic of
the decoding, or the decoded batch with the continuation token. -/
inductive Fetched (ε : Type) where
  | failed (err : ε) : Fetched ε
  | panicked (p : GoPanic) : Fetched ε
  | page (results : List Review) (nextToken : String) : Fetched ε

/-- The tree that `Parse` reads from the text `review.String()` of a raw
record (line 83).  The text of an array, of a number, of a boolean or of null
reads back as that value.  The text of a string value is the content of the
string, which `Parse` reads as JSON text in its turn: `readText` is the
reading of a text by the JSON library, which is not among the sources and is
taken as a parameter. -/
def recordText (readText : String → JSON) : JSON → JSON
  | .str s => readText s
  | v => v

/-- The loop over the raw records of a page (lines 82-87). -/
def decodeLoop (readText : String → JSON) :
    List JSON → List Review → Except GoPanic (List Review)
  | [], results => .ok results
  | review :: rest, results =>
    match Parse (recordText readText review) with
    | .error p => .error p
    | .ok none => decodeLoop readText rest results
    | .ok (some result) => decodeLoop readText rest (results ++ [result])

/-- The decoding of a response (lines 78-89). -/
def decodeResponse {ε : Type} (readText : String → JSON) (js : JSON) : Fetched ε :=
  let nextToken := GetJSONValue js [1, 1]
  match decodeLoop readText (GetJSONArray js [0]) [] with
  | .error p => .panicked p
  | .ok results => .page results nextToken

/-- The method `batchexecute` (lines 72-90). -/
def batchexecute {τ ε : Type} (readText : String → JSON) (reviews : Reviews)
    (BatchExecute : Transport τ ε)
    (t : τ) (payload : String) : τ × Fetched ε :=
  match BatchExecute t reviews.options.Country reviews.options.Language payload with
  | (t', .error err) => (t', .failed err)
  | (t', .ok js) => (t', decodeResponse readText js)

/-! ## `RunPaging` -/

/-- How a run ended: `returned none` is the nil error, `running` is a run whose
fuel ran out before the loop ended. -/
inductive Outcome (ε : Type) where
  | returned (err : Option ε) : Outcome ε
  | panicked (p : GoPanic) : Outcome ε
  | running : Outcome ε

/-- One transport call of a run: the payload sent and the answer received. -/
structure Call (ε : Type) where
  payload : String
  response : Except ε JSON

/-- One consumer invocation of a run: the batch handed over, the continuation
token of that page and the answer of the consumer. -/
structure Page where
  results : List Review
  token : String
  stop : Bool
  deriving DecidableEq, Repr

/-- The test that ends a run after a page (lines 111-116). -/
def Page.terminal (page : Page) : Bool :=
  page.stop || (page.token == "" || page.results.length == 0)

/-- A run of `RunPaging`: its outcome, the transport calls and the consumer
invocations it made, in order, and the final states of transport and
consumer. -/
structure Run (τ σ ε : Type) where
  outcome : Outcome ε
  calls : List (Call ε)
  pages : List Page
  transport : τ
  consumer : σ

/-- The `for` loop of `RunPaging` (lines 105-123), with fuel.  The consumer
`resultFunc` is a closure: it maps its own state and the batch to its next
state and the stop flag. -/
def pagingLoop {τ σ ε : Type} (readText : String → JSON) (reviews : Reviews)
    (BatchExecute : Transport τ ε) (resultFunc : σ → List Review → σ × Bool) :
    Nat → τ → σ → String → Run τ σ ε
  | 0, t, s, _ =>
    { outcome := .running, calls := [], pages := [], transport := t, consumer := s }
  | fuel + 1, t, s, payload =>
    let call : Call ε :=
      { payload := payload
        response := (BatchExecute t reviews.options.Country reviews.options.Language payload).2 }
    match batchexecute readText reviews BatchExecute t payload with
    | (t', .failed err) =>
      { outcome := .returned (some err), calls := [call], pages := [],
        transport := t', consumer := s }
    | (t', .panicked p) =>
      { outcome := .panicked p, calls := [call], pages := [], transport := t', consumer := s }
    | (t', .page results token) =>
      match resultFunc s results with
      | (s', stop) =>
        let page : Page := { results := results, token := token, stop := stop }
        if stop then
          { outcome := .returned none, calls := [call], pages := [page],
            transport := t', consumer := s' }
        else if token = "" ∨ results.length = 0 then
          { outcome := .returned none, calls := [call], pages := [page],
            transport := t', consumer := s' }
        else
          let rest := pagingLoop readText reviews BatchExecute resultFunc fuel t' s'
            (paginatedPayload reviews token)
          { rest with calls := call :: rest.calls, pages := page :: rest.pages }

/-- The clamp of the page size at the start of a run (lines 96-98). -/
def clampNumber (reviews : Reviews) : Reviews :=
  if reviews.options.Number > maxNumberOfReviewsPerRequest then
    { reviews with options := { reviews.options with Number := maxNumberOfReviewsPerRequest } }
  else reviews

/-- The method `RunPaging` (lines 94-124), with fuel for its loop. -/
def RunPaging {τ σ ε : Type} (readText : String → JSON) (reviews : Reviews)
    (BatchExecute : Transport τ ε) (resultFunc : σ → List Review → σ × Bool) (fuel : Nat)
    (t : τ) (s : σ) : Run τ σ ε :=
  let reviews := clampNumber reviews
  pagingLoop readText reviews BatchExecute resultFunc fuel t s (initialPayload reviews)

/-- The state of the consumer after it was invoked, in order, on the batches
of the given pages. -/
def consumerAfter {σ : Type} (resultFunc : σ → List Review → σ × Bool) (s : σ)
    (pages : List Page) : σ :=
  pages.foldl (fun s page => (resultFunc s page.results).1) s

/-- The Review a raw record of a page decodes to, `none` when `Parse` gives
nil or does not complete on the text of the record. -/
def decoded (readText : String → JSON) (review : JSON) : Option Review :=
  match Parse (recordText readText review) with
  | .ok result => result
  | .error _ => none

/-! ## `Review.URL` and `New` -/

/-- URL of review (lines 45-50); `fmt.Sprintf` puts the two strings in the
places of the two `%s` verbs. -/
def Review.URL (r : Review) (appID : String) : String :=
  if r.ID ≠ "" then
    "https://play.google.com/store/apps/details?id=" ++ appID ++ "&reviewId=" ++ r.ID
  else ""

/-- The function `New` (lines 59-70).  The constant `store.SortHelpfulness` of
`pkg/store` is not among the sources and is taken as the first argument. -/
def New (SortHelpfulness : Int) (appID : String) (options : Options) : Reviews :=
  let options :=
    if options.Number = 0 then { options with Number := maxNumberOfReviewsPerRequest }
    else options
  let options :=
    if options.Sorting = 0 then { options with Sorting := SortHelpfulness }
    else options
  { appID := appID, options := options }

/-! ## Payloads in the words of the specification -/

/-- The request payload as the specification describes it: a fixed text that
embeds the sort code, the page size, the token field and the application
identifier. -/
def payloadWith (sort size : Int) (tokenField appID : String) : String :=
  "f.req=%5B%5B%5B%22UsvDTd%22%2C%22%5Bnull%2Cnull%2C%5B2%2C" ++ Itoa sort ++ "%2C%5B" ++
    Itoa size ++ "%2Cnull%2C" ++ tokenField ++ "%5D%2Cnull%2C%5B%5D%5D%2C%5B%5C%22" ++
    appID ++ "%5C%22%2C7%5D%5D%22%2Cnull%2C%22generic%22%5D%5D%5D"

/-- The token field of the first request: no token. -/
def noToken : String := "null"

/-- The token field of a continuation request: the token between two escaped
quotes. -/
def quotedToken (token : String) : String :=
  "%5C%22" ++ token ++ "%5C%22"

/-- Whether the transport answered the call without an error. -/
def Call.succeeded {ε : Type} (call : Call ε) : Bool :=
  match call.response with
  | .ok _ => true
  | .error _ => false

/-- Whether a run of characters is a non-empty run of decimal digits. -/
def allDigits (cs : List Char) : Bool :=
  !cs.isEmpty && cs.all Char.isDigit

/-- Whether a text is numeric in the sense of the specification of the integer
decoding: an optional sign followed by one or more decimal digits. -/
def isNumeral (s : String) : Bool :=
  match s.data with
  | [] => false
  | c :: cs => if c = '-' ∨ c = '+' then allDigits cs else allDigits (c :: cs)

/-- One step of the digit fold of `digitsValue`. -/
def digitStep (acc : Option Nat) (c : Char) : Option Nat :=
  match acc with
  | some n => if c.isDigit then some (n * 10 + (c.toNat - 48)) else none
  | none => none

/-! ## Sample records -/

/-- The sample record of the specification (section 8). -/
def sampleRecord : JSON :=
  .arr [.str "r1",
    .arr [.str "Alice", .num 0, .num 0, .arr [.str "", .num 0, .num 0, .str "AV"]],
    .num 5, .num 0, .str "Great app", .num 0, .num 0,
    .arr [.num 1690000000, .num 0], .num 3, .num 0, .num 0, .num 0,
    .str "1.2.3", .num 0, .arr [.str "Speed", .num 0, .arr [.num 5]]]

/-- A record with body text `"x"` whose position 12 holds the given value and
whose other positions hold the number zero. -/
def recordWithCriteria (field12 : JSON) : JSON :=
  .arr [.num 0, .num 0, .num 0, .num 0, .str "x", .num 0, .num 0, .num 0,
    .num 0, .num 0, .num 0, .num 0, field12]

/-- A record aligned to the fixed paths: reviewer, score, body text, epoch,
useful count, reply, version and three criteria tuples, two of them named
`"Speed"`. -/
def alignedRecord : JSON :=
  .arr [.str "r1",
    .arr [.str "Alice", .arr [.num 0, .num 0, .num 0, .arr [.num 0, .num 0, .str "AV"]]],
    .num 5, .num 0, .str "Great app", .arr [.num 1690000000, .num 0], .num 3,
    .arr [.str "Dev", .str "Thanks", .arr [.num 1690000100]], .num 0, .num 0,
    .str "1.2.3", .num 0,
    .arr [.arr [.arr [.str "Speed", .num 0, .arr [.num 5]],
                .arr [.str "Ads"],
                .arr [.str "Speed", .num 0, .arr [.num 2]]]]]

/-- The Review decoded from `alignedRecord`. -/
def alignedReview : Review :=
  { Avatar := "AV"
    Criteria := [("Speed", 2), ("Ads", 0)]
    ID := "r1"
    Score := 5
    Reviewer := "Alice"
    Reply := "Thanks"
    ReplyTimestamp := Unix 1690000100 0
    Respondent := "Dev"
    Text := "Great app"
    Timestamp := Unix 1690000000 0
    Useful := 3
    Version := "1.2.3" }

/-- A record with body text whose score is the text `"12abc"` and whose useful
count is the text `"1.5"`. -/
def textScoreRecord : JSON :=
  .arr [.str "r3", .num 0, .str "12abc", .num 0, .str "x", .num 0, .str "1.5"]

/-- The Review decoded from `textScoreRecord`. -/
def textScoreReview : Review :=
  { Avatar := ""
    Criteria := []
    ID := "r3"
    Score := 0
    Reviewer := ""
    Reply := ""
    ReplyTimestamp := Unix 0 0
    Respondent := ""
    Text := "x"
    Timestamp := Unix 0 0
    Useful := 0
    Version := "" }

/-- A record with body text whose criteria list holds one empty entry. -/
def shortCriterionRecord : JSON :=
  recordWithCriteria (.arr [.arr [.arr []]])

/-- A reader of JSON text for the sample runs: it reads the compact text of
`alignedRecord` as `alignedRecord` and any other text as null. -/
def sampleReader : String → JSON :=
  fun text => if text = alignedRecord.raw then alignedRecord else .null

/-! ## Sample transports and consumers -/

/-- A transport that answers from a script: its state is the list of the
answers still to give, and it answers with an empty response once the script
is used up. -/
def scripted : Transport (List (Except String JSON)) String :=
  fun script _ _ _ =>
    match script with
    | [] => ([], .ok (.arr []))
    | answer :: rest => (rest, answer)

/-- A transport that gives the same answer to every call. -/
def constant (answer : JSON) : Transport Unit String :=
  fun _ _ _ _ => ((), .ok answer)

/-- A consumer that collects the batches and never signals stop. -/
def collect : List Review → List Review → List Review × Bool :=
  fun seen batch => (seen ++ batch, false)

/-- A consumer that collects the batches and signals stop at once. -/
def collectAndStop : List Review → List Review → List Review × Bool :=
  fun seen batch => (seen ++ batch, true)

/-- A response holding the given records and the given continuation token. -/
def response (records : List JSON) (token : String) : JSON :=
  .arr [.arr records, .arr [.null, .str token]]

/-- A Reviews instance for the sample runs. -/
def sampleReviews : Reviews :=
  { appID := "com.example.app"
    options := { Country := "us", Language := "en", Number := 200, Sorting := 2 } }

/-- A Reviews instance that requests a total of one review. -/
def singleReviews : Reviews :=
  { appID := "a", options := { Country := "", Language := "", Number := 1, Sorting := 1 } }

/-- A Reviews instance that requests a total of 300 reviews. -/
def manyReviews : Reviews :=
  { appID := "a", options := { Country := "", Language := "", Number := 300, Sorting := 1 } }

/-! # Theorems -/

/-! ## Lemmas on maps -/

theorem GoMap.get?_set (m : GoMap) (k k' : String) (v : Int) :
    GoMap.get? (GoMap.set m k v) k' = if k = k' then some v else GoMap.get? m k' := by
  induction m with
  | nil =>
    simp only [GoMap.set, GoMap.get?]
  | cons e m ih =>
    obtain ⟨a, b⟩ := e
    simp only [GoMap.set]
    by_cases hak : a = k
    · subst hak
      simp only [if_true, GoMap.get?]
      by_cases h : a = k'
      · simp [h]
      · simp [h]
    · simp only [hak, if_false, GoMap.get?, ih]
      by_cases h : a = k'
      · subst h
        simp [Ne.symm hak]
      · simp [h]

theorem GoMap.keys_set (m : GoMap) (k : String) (v : Int) :
    GoMap.keys (GoMap.set m k v) = if k ∈ GoMap.keys m then GoMap.keys m else GoMap.keys m ++ [k] := by
  induction m with
  | nil => simp [GoMap.set, GoMap.keys]
  | cons e m ih =>
    obtain ⟨a, b⟩ := e
    simp only [GoMap.keys] at ih ⊢
    simp only [GoMap.set]
    by_cases hak : a = k
    · subst hak
      simp
    · simp only [hak, if_false, List.map_cons, ih, List.mem_cons]
      have hka : ¬ k = a := fun h => hak h.symm
      by_cases hmem : k ∈ List.map Prod.fst m
      · simp [hmem]
      · simp [hmem, hka]

theorem GoMap.keys_set_nodup (m : GoMap) (k : String) (v : Int) (h : (GoMap.keys m).Nodup) :
    (GoMap.keys (GoMap.set m k v)).Nodup := by
  rw [GoMap.keys_set]
  by_cases hmem : k ∈ GoMap.keys m
  · simpa [hmem] using h
  · simp only [hmem, if_false]
    rw [List.nodup_append]
    refine ⟨h, List.nodup_singleton k, ?_⟩
    intro a ha hb
    simp only [List.mem_singleton] at hb
    exact hmem (hb ▸ ha)

theorem GoMap.mem_keys_iff (m : GoMap) (k : String) :
    k ∈ GoMap.keys m ↔ ∃ v, GoMap.get? m k = some v := by
  induction m with
  | nil => simp [GoMap.keys, GoMap.get?]
  | cons e m ih =>
    obtain ⟨a, b⟩ := e
    simp only [GoMap.keys, List.map_cons, List.mem_cons, GoMap.get?] at ih ⊢
    by_cases h : a = k
    · subst h
      simp
    · have h' : ¬ k = a := fun e => h e.symm
      simp [h, h', ih]

/-! ## Lemmas on the criteria loop -/

theorem index_eq_ok {xs : List JSON} {i : Nat} {x : JSON} (h : index xs i = .ok x) :
    xs.get? i = some x := by
  unfold index at h
  cases hg : xs.get? i with
  | none => rw [hg] at h; cases h
  | some y => rw [hg] at h; cases h; rfl

theorem criterionRating_eq {criterion : JSON} {rating : Int}
    (h : criterionRating criterion = .ok rating) : rating = tupleRating criterion := by
  unfold criterionRating at h
  unfold tupleRating
  by_cases hlen : criterion.asArray.length > 2
  · simp only [hlen, if_true] at h ⊢
    cases h2 : index criterion.asArray 2 with
    | error p => rw [h2] at h; cases h
    | ok third =>
      rw [h2] at h
      simp only at h
      cases h0 : index third.asArray 0 with
      | error p => rw [h0] at h; cases h
      | ok first =>
        rw [h0] at h
        simp only [Except.ok.injEq] at h
        rw [index_eq_ok h2]
        simp only
        rw [index_eq_ok h0]
        exact h.symm
  · simp only [hlen, if_false, Except.ok.injEq] at h ⊢
    exact h.symm

theorem criterionStep_eq {criteria criteria' : GoMap} {criterion : JSON}
    (h : criterionStep criteria criterion = .ok criteria') :
    criteria' = GoMap.set criteria (tupleName criterion) (tupleRating criterion) ∧
      (∃ name, criterion.asArray.get? 0 = some name) ∧
      criterionRating criterion = .ok (tupleRating criterion) := by
  unfold criterionStep at h
  cases hr : criterionRating criterion with
  | error p => rw [hr] at h; cases h
  | ok rating =>
    rw [hr] at h
    simp only at h
    cases h0 : index criterion.asArray 0 with
    | error p => rw [h0] at h; cases h
    | ok name =>
      rw [h0] at h
      simp only [Except.ok.injEq] at h
      have hn := index_eq_ok h0
      refine ⟨?_, ⟨name, hn⟩, ?_⟩
      · rw [← h, criterionRating_eq hr]
        unfold tupleName
        rw [hn]
      · rw [criterionRating_eq hr]

/-- The map a successful criteria loop returns is the fold of the map
assignments of the tuples' names and ratings. -/
theorem criteriaLoop_eq (tuples : List JSON) (criteria criteria' : GoMap)
    (h : criteriaLoop tuples criteria = .ok criteria') :
    criteria' = tuples.foldl (fun m t => GoMap.set m (tupleName t) (tupleRating t)) criteria ∧
      ∀ t ∈ tuples, (∃ name, t.asArray.get? 0 = some name) ∧
        criterionRating t = .ok (tupleRating t) := by
  induction tuples generalizing criteria with
  | nil =>
    simp only [criteriaLoop, Except.ok.injEq] at h
    simp [h]
  | cons t rest ih =>
    simp only [criteriaLoop] at h
    cases hs : criterionStep criteria t with
    | error p => rw [hs] at h; cases h
    | ok c1 =>
      rw [hs] at h
      simp only at h
      obtain ⟨hc1, hname, hrat⟩ := criterionStep_eq hs
      obtain ⟨hfold, hall⟩ := ih c1 h
      refine ⟨?_, ?_⟩
      · rw [List.foldl_cons, ← hc1]
        exact hfold
      · intro u hu
        rcases List.mem_cons.mp hu with rfl | hu
        · exact ⟨hname, hrat⟩
        · exact hall u hu

theorem foldSet_get?_of_not_mem (tuples : List JSON) (m : GoMap) (k : String)
    (h : ∀ u ∈ tuples, tupleName u ≠ k) :
    GoMap.get? (tuples.foldl (fun m t => GoMap.set m (tupleName t) (tupleRating t)) m) k
      = GoMap.get? m k := by
  induction tuples generalizing m with
  | nil => rfl
  | cons t rest ih =>
    rw [List.foldl_cons, ih _ (fun u hu => h u (List.mem_cons_of_mem _ hu)), GoMap.get?_set]
    simp [h t (List.mem_cons_self _ _)]

theorem foldSet_get?_last (pre post : List JSON) (t : JSON) (m : GoMap)
    (h : ∀ u ∈ post, tupleName u ≠ tupleName t) :
    GoMap.get? ((pre ++ t :: post).foldl
      (fun m t => GoMap.set m (tupleName t) (tupleRating t)) m) (tupleName t)
      = some (tupleRating t) := by
  rw [List.foldl_append, List.foldl_cons, foldSet_get?_of_not_mem _ _ _ h, GoMap.get?_set]
  simp

theorem foldSet_get?_source (tuples : List JSON) (m : GoMap) (k : String) (v : Int)
    (h : GoMap.get? (tuples.foldl
      (fun m t => GoMap.set m (tupleName t) (tupleRating t)) m) k = some v) :
    GoMap.get? m k = some v ∨ ∃ t ∈ tuples, tupleName t = k ∧ tupleRating t = v := by
  induction tuples generalizing m with
  | nil => exact Or.inl h
  | cons t rest ih =>
    rw [List.foldl_cons] at h
    rcases ih _ h with h1 | ⟨u, hu, hk, hv⟩
    · rw [GoMap.get?_set] at h1
      by_cases hn : tupleName t = k
      · simp only [hn, if_true, Option.some.injEq] at h1
        exact Or.inr ⟨t, List.mem_cons_self _ _, hn, h1⟩
      · simp only [hn, if_false] at h1
        exact Or.inl h1
    · exact Or.inr ⟨u, List.mem_cons_of_mem _ hu, hk, hv⟩

theorem foldSet_keys_nodup (tuples : List JSON) (m : GoMap) (h : (GoMap.keys m).Nodup) :
    (GoMap.keys (tuples.foldl
      (fun m t => GoMap.set m (tupleName t) (tupleRating t)) m)).Nodup := by
  induction tuples generalizing m with
  | nil => exact h
  | cons t rest ih =>
    rw [List.foldl_cons]
    exact ih _ (GoMap.keys_set_nodup m _ _ h)

theorem foldSet_mem_keys (tuples : List JSON) (m : GoMap) (t : JSON) (h : t ∈ tuples) :
    tupleName t ∈ GoMap.keys (tuples.foldl
      (fun m t => GoMap.set m (tupleName t) (tupleRating t)) m) := by
  obtain ⟨pre, post, rfl⟩ := List.append_of_mem h
  induction post using List.reverseRecOn generalizing pre t with
  | nil =>
    rw [GoMap.mem_keys_iff]
    exact ⟨_, foldSet_get?_last pre [] t m (by simp)⟩
  | append_singleton post u _ =>
    rw [GoMap.mem_keys_iff]
    rw [← List.cons_append, ← List.append_assoc, List.foldl_append]
    simp only [List.foldl_cons, List.foldl_nil]
    rw [GoMap.get?_set]
    by_cases hn : tupleName u = tupleName t
    · simp [hn]
    · simp only [hn, if_false]
      rw [← GoMap.mem_keys_iff]
      rename_i ih
      exact ih t pre (by simp)

/-- What `Parse` returns, by cases on the body text and on the criteria
loop. -/
theorem Parse_eq (review : JSON) :
    Parse review =
      if GetJSONValue review [4] = "" then .ok none
      else match criteriaLoop (GetJSONArray review [12, 0]) [] with
        | .error p => .error p
        | .ok criteria =>
          .ok (some
            { Avatar := GetJSONValue review [1, 1, 3, 2]
              Criteria := criteria
              ID := GetJSONValue review [0]
              Reply := GetJSONValue review [7, 1]
              ReplyTimestamp := Unix (parseInt (GetJSONValue review [7, 2, 0])) 0
              Respondent := GetJSONValue review [7, 0]
              Reviewer := GetJSONValue review [1, 0]
              Score := parseInt (GetJSONValue review [2])
              Text := GetJSONValue review [4]
              Timestamp := Unix (parseInt (GetJSONValue review [5, 0])) 0
              Useful := parseInt (GetJSONValue review [6])
              Version := GetJSONValue review [10] }) := by
  unfold Parse
  by_cases h : GetJSONValue review [4] = ""
  · simp [h]
  · simp [h]

/-- A Review is returned only for a non-empty body text and a criteria loop
that completed, and it holds the map of that loop. -/
theorem Parse_some_inv (review : JSON) (rv : Review) (h : Parse review = .ok (some rv)) :
    GetJSONValue review [4] ≠ "" ∧
      criteriaLoop (GetJSONArray review [12, 0]) [] = .ok rv.Criteria := by
  by_cases hne : GetJSONValue review [4] = ""
  · rw [Parse_eq, if_pos hne] at h
    cases h
  · rw [Parse_eq, if_neg hne] at h
    cases hc : criteriaLoop (GetJSONArray review [12, 0]) [] with
    | error p => rw [hc] at h; cases h
    | ok c =>
      rw [hc] at h
      simp only [Except.ok.injEq, Option.some.injEq] at h
      subst h
      exact ⟨hne, rfl⟩

/-! ## Lemmas on the pagination loop -/

theorem Page.terminal_eq_false_iff (page : Page) :
    page.terminal = false ↔ page.stop = false ∧ page.token ≠ "" ∧ page.results ≠ [] := by
  unfold Page.terminal
  cases page.stop <;> simp [List.length_eq_zero]

theorem Page.terminal_eq_true_iff (page : Page) :
    page.terminal = true ↔ page.stop = true ∨ page.token = "" ∨ page.results = [] := by
  unfold Page.terminal
  cases page.stop <;> simp [List.length_eq_zero]

/-- One iteration of the loop, by cases on the answer of the transport, on the
decoding of the answer and on the termination test. -/
theorem pagingLoop_succ {τ σ ε : Type} (readText : String → JSON)
    (reviews : Reviews) (B : Transport τ ε)
    (f : σ → List Review → σ × Bool) (fuel : Nat) (t : τ) (s : σ) (payload : String) :
    pagingLoop readText reviews B f (fuel + 1) t s payload =
      match B t reviews.options.Country reviews.options.Language payload with
      | (t', .error err) =>
        { outcome := .returned (some err), calls := [⟨payload, .error err⟩], pages := [],
          transport := t', consumer := s }
      | (t', .ok js) =>
        match decodeLoop readText (GetJSONArray js [0]) [] with
        | .error p =>
          { outcome := .panicked p, calls := [⟨payload, .ok js⟩], pages := [],
            transport := t', consumer := s }
        | .ok results =>
          if Page.terminal ⟨results, GetJSONValue js [1, 1], (f s results).2⟩ = true then
            { outcome := .returned none, calls := [⟨payload, .ok js⟩],
              pages := [⟨results, GetJSONValue js [1, 1], (f s results).2⟩],
              transport := t', consumer := (f s results).1 }
          else
            { pagingLoop readText reviews B f fuel t' (f s results).1
                (paginatedPayload reviews (GetJSONValue js [1, 1])) with
              calls := ⟨payload, .ok js⟩ ::
                (pagingLoop readText reviews B f fuel t' (f s results).1
                  (paginatedPayload reviews (GetJSONValue js [1, 1]))).calls
              pages := ⟨results, GetJSONValue js [1, 1], (f s results).2⟩ ::
                (pagingLoop readText reviews B f fuel t' (f s results).1
                  (paginatedPayload reviews (GetJSONValue js [1, 1]))).pages } := by
  rw [pagingLoop]
  simp only [batchexecute]
  cases hB : B t reviews.options.Country reviews.options.Language payload with
  | mk t' ans =>
    cases ans with
    | error err => rfl
    | ok js =>
      simp only [decodeResponse]
      cases hd : decodeLoop readText (GetJSONArray js [0]) [] with
      | error p => rfl
      | ok results =>
        simp only
        cases hf : f s results with
        | mk s' stop =>
          simp only [Page.terminal]
          cases stop with
          | true => simp
          | false =>
            by_cases htok : GetJSONValue js [1, 1] = ""
            · simp [htok]
            · by_cases hres : results.length = 0
              · simp [hres]
              · simp [htok, hres]

theorem pagingLoop_calls_pos {τ σ ε : Type} (readText : String → JSON)
    (reviews : Reviews) (B : Transport τ ε)
    (f : σ → List Review → σ × Bool) (fuel : Nat) (t : τ) (s : σ) (payload : String) :
    0 < (pagingLoop readText reviews B f (fuel + 1) t s payload).calls.length := by
  rw [pagingLoop_succ]
  cases hB : B t reviews.options.Country reviews.options.Language payload with
  | mk t' ans =>
    cases ans with
    | error err => simp
    | ok js =>
      simp only
      cases hd : decodeLoop readText (GetJSONArray js [0]) [] with
      | error p => simp
      | ok results =>
        simp only
        split <;> simp

/-- Every consumer invocation of a run belongs to a transport call that
succeeded and decoded to the batch handed over; a terminal page ends the run
with success and is the last page and call; after any other page a further
call is made while fuel remains. -/
theorem pagingLoop_pages {τ σ ε : Type} (readText : String → JSON)
    (reviews : Reviews) (B : Transport τ ε)
    (f : σ → List Review → σ × Bool) (fuel : Nat) (t : τ) (s : σ) (payload : String)
    (k : Nat) (page : Page)
    (h : (pagingLoop readText reviews B f fuel t s payload).pages.get? k = some page) :
    (∃ call js, (pagingLoop readText reviews B f fuel t s payload).calls.get? k = some call ∧
        call.response = .ok js ∧
        decodeLoop readText (GetJSONArray js [0]) [] = .ok page.results ∧
        page.token = GetJSONValue js [1, 1]) ∧
      page.stop = (f (consumerAfter f s
        ((pagingLoop readText reviews B f fuel t s payload).pages.take k)) page.results).2 ∧
      (page.terminal = true →
        (pagingLoop readText reviews B f fuel t s payload).outcome = .returned none ∧
        (pagingLoop readText reviews B f fuel t s payload).pages.length = k + 1 ∧
        (pagingLoop readText reviews B f fuel t s payload).calls.length = k + 1 ∧
        (pagingLoop readText reviews B f fuel t s payload).consumer
          = consumerAfter f s (pagingLoop readText reviews B f fuel t s payload).pages) ∧
      (page.terminal = false → k + 1 < fuel →
        k + 1 < (pagingLoop readText reviews B f fuel t s payload).calls.length) := by
  induction fuel generalizing t s payload k with
  | zero => simp [pagingLoop] at h
  | succ fuel ih =>
    rw [pagingLoop_succ] at h ⊢
    cases hB : B t reviews.options.Country reviews.options.Language payload with
    | mk t' ans =>
      rw [hB] at h
      cases ans with
      | error err => simp at h
      | ok js =>
        simp only at h ⊢
        cases hd : decodeLoop readText (GetJSONArray js [0]) [] with
        | error p => rw [hd] at h; simp at h
        | ok results =>
          rw [hd] at h
          simp only at h ⊢
          by_cases hterm : Page.terminal ⟨results, GetJSONValue js [1, 1], (f s results).2⟩ = true
          · rw [if_pos hterm] at h ⊢
            simp only at h ⊢
            cases k with
            | zero =>
              simp only [List.get?_cons_zero, Option.some.injEq] at h
              subst h
              refine ⟨⟨_, js, rfl, rfl, hd, rfl⟩, ?_, ?_, ?_⟩
              · simp [consumerAfter]
              · intro _
                simp [consumerAfter]
              · intro hfalse
                rw [hterm] at hfalse
                cases hfalse
            | succ k => simp at h
          · rw [if_neg hterm] at h ⊢
            simp only at h ⊢
            cases k with
            | zero =>
              simp only [List.get?_cons_zero, Option.some.injEq] at h
              subst h
              refine ⟨⟨_, js, rfl, rfl, hd, rfl⟩, ?_, ?_, ?_⟩
              · simp [consumerAfter]
              · intro htrue
                exact absurd htrue hterm
              · intro _ hlt
                cases fuel with
                | zero => omega
                | succ fuel =>
                  have := pagingLoop_calls_pos readText reviews B f fuel t' (f s results).1
                    (paginatedPayload reviews (GetJSONValue js [1, 1]))
                  simp only [List.length_cons]
                  omega
            | succ k =>
              simp only [List.get?_cons_succ] at h
              obtain ⟨h1, h2, h3, h4⟩ := ih t' (f s results).1
                (paginatedPayload reviews (GetJSONValue js [1, 1])) k h
              refine ⟨?_, ?_, ?_, ?_⟩
              · simpa using h1
              · simpa [consumerAfter] using h2
              · intro htrue
                obtain ⟨a, b, c, d⟩ := h3 htrue
                refine ⟨a, ?_, ?_, ?_⟩
                · simp [b]
                · simp [c]
                · simpa [consumerAfter] using d
              · intro hfalse hlt
                have := h4 hfalse (by omega)
                simp only [List.length_cons]
                omega

/-- A transport call that fails ends the run: the error is returned, the call
is the last one, the consumer was invoked for the calls before it only, and no
page before it was terminal. -/
theorem pagingLoop_failed_call {τ σ ε : Type} (readText : String → JSON)
    (reviews : Reviews) (B : Transport τ ε)
    (f : σ → List Review → σ × Bool) (fuel : Nat) (t : τ) (s : σ) (payload : String)
    (k : Nat) (call : Call ε) (e : ε)
    (h : (pagingLoop readText reviews B f fuel t s payload).calls.get? k = some call)
    (he : call.response = .error e) :
    (pagingLoop readText reviews B f fuel t s payload).outcome = .returned (some e) ∧
      (pagingLoop readText reviews B f fuel t s payload).calls.length = k + 1 ∧
      (pagingLoop readText reviews B f fuel t s payload).pages.length = k ∧
      (∀ p ∈ (pagingLoop readText reviews B f fuel t s payload).pages, p.terminal = false) ∧
      (pagingLoop readText reviews B f fuel t s payload).consumer
        = consumerAfter f s (pagingLoop readText reviews B f fuel t s payload).pages := by
  induction fuel generalizing t s payload k with
  | zero => simp [pagingLoop] at h
  | succ fuel ih =>
    rw [pagingLoop_succ] at h ⊢
    cases hB : B t reviews.options.Country reviews.options.Language payload with
    | mk t' ans =>
      rw [hB] at h
      cases ans with
      | error err =>
        simp only at h ⊢
        cases k with
        | zero =>
          simp only [List.get?_cons_zero, Option.some.injEq] at h
          subst h
          simp only [Except.error.injEq] at he
          subst he
          simp [consumerAfter]
        | succ k => simp at h
      | ok js =>
        simp only at h ⊢
        cases hd : decodeLoop readText (GetJSONArray js [0]) [] with
        | error p =>
          rw [hd] at h
          simp only at h
          cases k with
          | zero =>
            simp only [List.get?_cons_zero, Option.some.injEq] at h
            subst h
            cases he
          | succ k => simp at h
        | ok results =>
          rw [hd] at h
          simp only at h ⊢
          by_cases hterm : Page.terminal ⟨results, GetJSONValue js [1, 1], (f s results).2⟩ = true
          · rw [if_pos hterm] at h
            simp only at h
            cases k with
            | zero =>
              simp only [List.get?_cons_zero, Option.some.injEq] at h
              subst h
              cases he
            | succ k => simp at h
          · rw [if_neg hterm] at h ⊢
            simp only at h ⊢
            cases k with
            | zero =>
              simp only [List.get?_cons_zero, Option.some.injEq] at h
              subst h
              cases he
            | succ k =>
              simp only [List.get?_cons_succ] at h
              obtain ⟨a, b, c, d, e'⟩ := ih t' (f s results).1
                (paginatedPayload reviews (GetJSONValue js [1, 1])) k h
              refine ⟨a, by simp [b], by simp [c], ?_, ?_⟩
              · intro p hp
                rcases List.mem_cons.mp hp with rfl | hp
                · simpa using hterm
                · exact d p hp
              · simpa [consumerAfter] using e'

/-- A run whose every page decodes to a non-empty batch with a non-empty token
and whose consumer never signals stop uses up any fuel: it makes one call per
unit of fuel and is still running. -/
theorem pagingLoop_running {τ σ ε : Type} (readText : String → JSON)
    (reviews : Reviews) (B : Transport τ ε)
    (f : σ → List Review → σ × Bool)
    (hB : ∀ t payload, ∃ js results,
      (B t reviews.options.Country reviews.options.Language payload).2 = .ok js ∧
      decodeLoop readText (GetJSONArray js [0]) [] = .ok results ∧ results ≠ [] ∧
      GetJSONValue js [1, 1] ≠ "")
    (hf : ∀ s batch, (f s batch).2 = false)
    (fuel : Nat) (t : τ) (s : σ) (payload : String) :
    (pagingLoop readText reviews B f fuel t s payload).outcome = .running ∧
      (pagingLoop readText reviews B f fuel t s payload).calls.length = fuel ∧
      (pagingLoop readText reviews B f fuel t s payload).pages.length = fuel := by
  induction fuel generalizing t s payload with
  | zero => simp [pagingLoop]
  | succ fuel ih =>
    rw [pagingLoop_succ]
    obtain ⟨js, results, h1, h2, h3, h4⟩ := hB t payload
    cases hBt : B t reviews.options.Country reviews.options.Language payload with
    | mk t' ans =>
      rw [hBt] at h1
      simp only at h1
      subst h1
      simp only [h2]
      have hterm : ¬ Page.terminal ⟨results, GetJSONValue js [1, 1], (f s results).2⟩ = true := by
        rw [Page.terminal_eq_true_iff]
        simp [hf, h3, h4]
      rw [if_neg hterm]
      obtain ⟨a, b, c⟩ := ih t' (f s results).1
        (paginatedPayload reviews (GetJSONValue js [1, 1]))
      exact ⟨a, by simp [b], by simp [c]⟩

/-- A run over a transport that never fails and whose answers all decode
either has returned success or has used up its fuel on pages none of which
was terminal. -/
theorem pagingLoop_progress {τ σ ε : Type} (readText : String → JSON)
    (reviews : Reviews) (B : Transport τ ε)
    (f : σ → List Review → σ × Bool)
    (hB : ∀ t payload, ∃ js results,
      (B t reviews.options.Country reviews.options.Language payload).2 = .ok js ∧
      decodeLoop readText (GetJSONArray js [0]) [] = .ok results)
    (fuel : Nat) (t : τ) (s : σ) (payload : String) :
    (pagingLoop readText reviews B f fuel t s payload).outcome = .returned none ∨
      ((pagingLoop readText reviews B f fuel t s payload).outcome = .running ∧
        (pagingLoop readText reviews B f fuel t s payload).pages.length = fuel ∧
        ∀ p ∈ (pagingLoop readText reviews B f fuel t s payload).pages, p.terminal = false) := by
  induction fuel generalizing t s payload with
  | zero => simp [pagingLoop]
  | succ fuel ih =>
    rw [pagingLoop_succ]
    obtain ⟨js, results, h1, h2⟩ := hB t payload
    cases hBt : B t reviews.options.Country reviews.options.Language payload with
    | mk t' ans =>
      rw [hBt] at h1
      simp only at h1
      subst h1
      simp only [h2]
      by_cases hterm : Page.terminal ⟨results, GetJSONValue js [1, 1], (f s results).2⟩ = true
      · rw [if_pos hterm]
        exact Or.inl rfl
      · rw [if_neg hterm]
        rcases ih t' (f s results).1 (paginatedPayload reviews (GetJSONValue js [1, 1]))
          with a | ⟨a, b, c⟩
        · exact Or.inl a
        · refine Or.inr ⟨a, by simp [b], ?_⟩
          intro p hp
          rcases List.mem_cons.mp hp with rfl | hp
          · simpa using hterm
          · exact c p hp

/-- The batch of a completed decoding loop: the Reviews of the records that
decode, appended in order. -/
theorem decodeLoop_eq (readText : String → JSON)
    (records : List JSON) (acc results : List Review)
    (h : decodeLoop readText records acc = .ok results) :
    results = acc ++ records.filterMap (decoded readText) ∧
      ∀ r ∈ records, ∃ o, Parse (recordText readText r) = .ok o := by
  induction records generalizing acc with
  | nil =>
    simp only [decodeLoop, Except.ok.injEq] at h
    simp [h]
  | cons r rest ih =>
    rw [decodeLoop] at h
    cases hp : Parse (recordText readText r) with
    | error p => rw [hp] at h; cases h
    | ok o =>
      rw [hp] at h
      cases o with
      | none =>
        simp only at h
        obtain ⟨a, b⟩ := ih acc h
        refine ⟨?_, ?_⟩
        · rw [a]
          simp [List.filterMap_cons, decoded, hp]
        · intro x hx
          rcases List.mem_cons.mp hx with rfl | hx
          · exact ⟨_, hp⟩
          · exact b x hx
      | some rv =>
        simp only at h
        obtain ⟨a, b⟩ := ih _ h
        refine ⟨?_, ?_⟩
        · rw [a]
          simp [List.filterMap_cons, decoded, hp]
        · intro x hx
          rcases List.mem_cons.mp hx with rfl | hx
          · exact ⟨_, hp⟩
          · exact b x hx

/-- The decoding loop completes when every record decodes without a run-time
failure. -/
theorem decodeLoop_ok (readText : String → JSON)
    (records : List JSON) (acc : List Review)
    (h : ∀ r ∈ records, ∃ o, Parse (recordText readText r) = .ok o) :
    decodeLoop readText records acc = .ok (acc ++ records.filterMap (decoded readText)) := by
  induction records generalizing acc with
  | nil => simp [decodeLoop]
  | cons r rest ih =>
    obtain ⟨o, hp⟩ := h r (List.mem_cons_self _ _)
    have hrest := fun acc => ih acc (fun x hx => h x (List.mem_cons_of_mem _ hx))
    rw [decodeLoop, hp]
    cases o with
    | none =>
      simp only
      rw [hrest]
      simp [List.filterMap_cons, decoded, hp]
    | some rv =>
      simp only
      rw [hrest]
      simp [List.filterMap_cons, decoded, hp]

/-! ## The record decoder -/

/-- C1: `Parse` returns no Review exactly when the body text read at path
`"4"` is empty, which is the case in particular when the path is absent or
holds the empty string, whatever the rest of the record holds; and a Review
that `Parse` returns carries as Text the non-empty body text read at path
`"4"`. -/
theorem Parse_none_iff_text_empty (review : JSON) :
    (Parse review = .ok none ↔ GetJSONValue review [4] = "") ∧
      (valueAt review [4] = none → Parse review = .ok none) ∧
      (valueAt review [4] = some (.str "") → Parse review = .ok none) ∧
      (∀ rv, Parse review = .ok (some rv) →
        rv.Text = GetJSONValue review [4] ∧ rv.Text ≠ "") := by
  have hnone : GetJSONValue review [4] = "" → Parse review = .ok none := by
    intro h
    rw [Parse_eq, if_pos h]
  refine ⟨⟨?_, hnone⟩, ?_, ?_, ?_⟩
  · intro h
    by_contra hne
    rw [Parse_eq, if_neg hne] at h
    cases hc : criteriaLoop (GetJSONArray review [12, 0]) [] with
    | error p => rw [hc] at h; cases h
    | ok c => rw [hc] at h; cases h
  · intro h
    apply hnone
    simp [GetJSONValue, h]
  · intro h
    apply hnone
    simp [GetJSONValue, h, JSON.asString]
  · intro rv h
    by_cases hne : GetJSONValue review [4] = ""
    · rw [hnone hne] at h
      cases h
    · rw [Parse_eq, if_neg hne] at h
      cases hc : criteriaLoop (GetJSONArray review [12, 0]) [] with
      | error p => rw [hc] at h; cases h
      | ok c =>
        rw [hc] at h
        simp only [Except.ok.injEq, Option.some.injEq] at h
        subst h
        exact ⟨rfl, hne⟩

/-- C2: `Parse` fails at run time with an index out of range on a record with
body text whose criteria list holds an empty entry, and on one whose criteria
entry has three elements of which the third is an empty array or null. -/
theorem Parse_panics_on_short_criterion :
    Parse (recordWithCriteria (.arr [.arr [.arr []]])) = .error (.indexOutOfRange 0 0) ∧
      Parse (recordWithCriteria (.arr [.arr [.arr [.str "Speed", .num 0, .arr []]]]))
        = .error (.indexOutOfRange 0 0) ∧
      Parse (recordWithCriteria (.arr [.arr [.arr [.str "Speed", .num 0, .null]]]))
        = .error (.indexOutOfRange 0 0) := by
  refine ⟨?_, ?_, ?_⟩ <;> rfl

/-- C3: for a record whose body text at path `"4"` is not empty, `Parse` does
not return nil, the Review it returns has every scalar field read at its own
fixed path, it returns that Review whenever the criteria loop completes, and a
string read at an absent path is the empty string. -/
theorem Parse_scalar_fields (review : JSON) (htext : GetJSONValue review [4] ≠ "") :
    Parse review ≠ .ok none ∧
      (∀ rv, Parse review = .ok (some rv) →
        rv.ID = GetJSONValue review [0] ∧
        rv.Reviewer = GetJSONValue review [1, 0] ∧
        rv.Avatar = GetJSONValue review [1, 1, 3, 2] ∧
        rv.Score = parseInt (GetJSONValue review [2]) ∧
        rv.Text = GetJSONValue review [4] ∧
        rv.Timestamp = Unix (parseInt (GetJSONValue review [5, 0])) 0 ∧
        rv.Useful = parseInt (GetJSONValue review [6]) ∧
        rv.Respondent = GetJSONValue review [7, 0] ∧
        rv.Reply = GetJSONValue review [7, 1] ∧
        rv.ReplyTimestamp = Unix (parseInt (GetJSONValue review [7, 2, 0])) 0 ∧
        rv.Version = GetJSONValue review [10]) ∧
      (∀ criteria, criteriaLoop (GetJSONArray review [12, 0]) [] = .ok criteria →
        ∃ rv, Parse review = .ok (some rv) ∧ rv.Criteria = criteria) ∧
      (∀ path, valueAt review path = none → GetJSONValue review path = "") := by
  refine ⟨?_, ?_, ?_, ?_⟩
  · intro h
    rw [Parse_eq, if_neg htext] at h
    cases hc : criteriaLoop (GetJSONArray review [12, 0]) [] with
    | error p => rw [hc] at h; cases h
    | ok c => rw [hc] at h; cases h
  · intro rv h
    rw [Parse_eq, if_neg htext] at h
    cases hc : criteriaLoop (GetJSONArray review [12, 0]) [] with
    | error p => rw [hc] at h; cases h
    | ok c =>
      rw [hc] at h
      simp only [Except.ok.injEq, Option.some.injEq] at h
      subst h
      exact ⟨rfl, rfl, rfl, rfl, rfl, rfl, rfl, rfl, rfl, rfl, rfl⟩
  · intro criteria hc
    rw [Parse_eq, if_neg htext, hc]
    exact ⟨_, rfl, rfl⟩
  · intro path h
    simp [GetJSONValue, h]

/-- Witness of C3 on `alignedRecord`. -/
theorem Parse_scalar_fields_witness :
    GetJSONValue alignedRecord [4] ≠ "" ∧ Parse alignedRecord = .ok (some alignedReview) ∧
      alignedReview.ID = GetJSONValue alignedRecord [0] ∧
      alignedReview.Reviewer = GetJSONValue alignedRecord [1, 0] :=
  have h := (Parse_scalar_fields alignedRecord (by decide)).2.1 alignedReview (by rfl)
  ⟨by decide, by rfl, h.1, h.2.1⟩

/-- C4: in a Review returned by `Parse`, every entry of Criteria comes from a
tuple of the list at path `"12.0"` whose first element is the entry's key, its
rating being the integer at the first position of the tuple's third element
when the tuple has more than two elements and zero otherwise; every tuple of
the list has its name among the keys; and an empty or absent list gives the
empty mapping. -/
theorem Parse_criteria_from_tuples (review : JSON) (rv : Review)
    (h : Parse review = .ok (some rv)) :
    (∀ k v, GoMap.get? rv.Criteria k = some v →
      ∃ t ∈ GetJSONArray review [12, 0], ∃ name,
        t.asArray.get? 0 = some name ∧ name.asString = k ∧
        ((t.asArray.length > 2 ∧ ∃ third first, t.asArray.get? 2 = some third ∧
            third.asArray.get? 0 = some first ∧ v = first.asInt) ∨
          (t.asArray.length ≤ 2 ∧ v = 0))) ∧
      (∀ t ∈ GetJSONArray review [12, 0], ∃ name,
        t.asArray.get? 0 = some name ∧ name.asString ∈ GoMap.keys rv.Criteria) ∧
      (GetJSONArray review [12, 0] = [] → rv.Criteria = []) ∧
      (valueAt review [12, 0] = none → rv.Criteria = []) := by
  obtain ⟨_, hc⟩ := Parse_some_inv review rv h
  generalize rv.Criteria = c at hc ⊢
  · obtain ⟨hfold, hall⟩ := criteriaLoop_eq _ _ _ hc
    have hempty : GetJSONArray review [12, 0] = [] → c = [] := by
      intro he
      rw [hfold, he]
      rfl
    refine ⟨?_, ?_, hempty, ?_⟩
    · intro k v hkv
      rw [hfold] at hkv
      rcases foldSet_get?_source _ _ _ _ hkv with h0 | ⟨t, ht, hk, hv⟩
      · simp [GoMap.get?] at h0
      · obtain ⟨⟨name, hname⟩, hrat⟩ := hall t ht
        refine ⟨t, ht, name, hname, ?_, ?_⟩
        · rw [← hk]
          unfold tupleName
          rw [hname]
        · by_cases hlen : t.asArray.length > 2
          · left
            refine ⟨hlen, ?_⟩
            unfold criterionRating at hrat
            simp only [hlen, if_true] at hrat
            cases h2 : index t.asArray 2 with
            | error p => rw [h2] at hrat; cases hrat
            | ok third =>
              rw [h2] at hrat
              simp only at hrat
              cases h0 : index third.asArray 0 with
              | error p => rw [h0] at hrat; cases hrat
              | ok first =>
                rw [h0] at hrat
                simp only [Except.ok.injEq] at hrat
                exact ⟨third, first, index_eq_ok h2, index_eq_ok h0, by rw [← hv, ← hrat]⟩
          · right
            refine ⟨Nat.le_of_not_gt hlen, ?_⟩
            rw [← hv]
            unfold tupleRating
            simp [hlen]
    · intro t ht
      obtain ⟨⟨name, hname⟩, _⟩ := hall t ht
      refine ⟨name, hname, ?_⟩
      have := foldSet_mem_keys _ [] t ht
      rw [← hfold] at this
      unfold tupleName at this
      rw [hname] at this
      exact this
    · intro habs
      apply hempty
      simp [GetJSONArray, habs]

/-- Witness of C4 on `alignedRecord`: the entry of `"Ads"` comes from a tuple
named `"Ads"`. -/
theorem Parse_criteria_from_tuples_witness :
    Parse alignedRecord = .ok (some alignedReview) ∧
      ∃ t ∈ GetJSONArray alignedRecord [12, 0], ∃ name,
        t.asArray.get? 0 = some name ∧ name.asString = "Ads" ∧
        ((t.asArray.length > 2 ∧ ∃ third first, t.asArray.get? 2 = some third ∧
            third.asArray.get? 0 = some first ∧ (0 : Int) = first.asInt) ∨
          (t.asArray.length ≤ 2 ∧ (0 : Int) = 0)) :=
  ⟨by rfl, (Parse_criteria_from_tuples alignedRecord alignedReview (by rfl)).1 "Ads" 0 (by rfl)⟩

/-- C9, as stated, fails: `Parse` does not decode the sample record of the
specification to a Review with Useful 3, Version `"1.2.3"`, the criterion
`"Speed"` rated 5 and empty Reply and Respondent. -/
theorem Parse_sampleRecord_not_as_stated :
    ¬ ∃ rv, Parse sampleRecord = .ok (some rv) ∧ rv.ID = "r1" ∧ rv.Reviewer = "Alice" ∧
      rv.Score = 5 ∧ rv.Text = "Great app" ∧ rv.Useful = 3 ∧ rv.Version = "1.2.3" ∧
      rv.Criteria = [("Speed", 5)] ∧ rv.Reply = "" ∧ rv.Respondent = "" := by
  rintro ⟨rv, h, _, _, _, _, hu, _⟩
  have hp : Parse sampleRecord = .ok (some
      { Avatar := "", Criteria := [], ID := "r1", Score := 5, Reviewer := "Alice",
        Reply := "0", ReplyTimestamp := Unix 0 0, Respondent := "1690000000",
        Text := "Great app", Timestamp := Unix 0 0, Useful := 0, Version := "0" }) := by rfl
  rw [hp] at h
  simp only [Except.ok.injEq, Option.some.injEq] at h
  subst h
  simp at hu

/-- C9, amended: `Parse` decodes the sample record of the specification to a
Review with ID `"r1"`, Reviewer `"Alice"`, Score 5, Text `"Great app"`, Useful
0, Version `"0"`, an empty Criteria mapping, Reply `"0"` and Respondent
`"1690000000"`. -/
theorem Parse_sampleRecord :
    ∃ rv, Parse sampleRecord = .ok (some rv) ∧ rv.ID = "r1" ∧ rv.Reviewer = "Alice" ∧
      rv.Score = 5 ∧ rv.Text = "Great app" ∧ rv.Useful = 0 ∧ rv.Version = "0" ∧
      rv.Criteria = [] ∧ rv.Reply = "0" ∧ rv.Respondent = "1690000000" :=
  ⟨{ Avatar := "", Criteria := [], ID := "r1", Score := 5, Reviewer := "Alice",
     Reply := "0", ReplyTimestamp := Unix 0 0, Respondent := "1690000000",
     Text := "Great app", Timestamp := Unix 0 0, Useful := 0, Version := "0" },
   by rfl, rfl, rfl, rfl, rfl, rfl, rfl, rfl, rfl, rfl⟩

/-- C10: in a Review returned by `Parse`, the Criteria mapping holds one entry
per distinct name, and for every tuple of the list at path `"12.0"` that no
later tuple of the list shares its name with, the mapping holds that tuple's
rating under its name: of several tuples with one name the last one wins. -/
theorem Parse_criteria_last_wins (review : JSON) (rv : Review)
    (h : Parse review = .ok (some rv)) :
    (GoMap.keys rv.Criteria).Nodup ∧
      ∀ pre t post, GetJSONArray review [12, 0] = pre ++ t :: post →
        (∀ u ∈ post, tupleName u ≠ tupleName t) →
        GoMap.get? rv.Criteria (tupleName t) = some (tupleRating t) := by
  obtain ⟨_, hc⟩ := Parse_some_inv review rv h
  obtain ⟨hfold, _⟩ := criteriaLoop_eq _ _ _ hc
  refine ⟨?_, ?_⟩
  · rw [hfold]
    exact foldSet_keys_nodup _ [] (by simp [GoMap.keys])
  · intro pre t post hl hpost
    rw [hfold, hl]
    exact foldSet_get?_last pre post t [] hpost

/-- Witness of C10 on `alignedRecord`, whose first and third tuples are both
named `"Speed"`, with ratings 5 and 2: the mapping holds 2. -/
theorem Parse_criteria_last_wins_witness :
    Parse alignedRecord = .ok (some alignedReview) ∧
      GoMap.get? alignedReview.Criteria "Speed" = some 2 :=
  ⟨by rfl,
   (Parse_criteria_last_wins alignedRecord alignedReview (by rfl)).2
     [.arr [.str "Speed", .num 0, .arr [.num 5]], .arr [.str "Ads"]]
     (.arr [.str "Speed", .num 0, .arr [.num 2]]) [] (by rfl) (by simp)⟩

/-! ## The page decoder and the pagination loop -/

/-- A page of a run (the consumer invocation number `k`) belongs to the
transport call number `k`, which succeeded and decoded to the batch and token
of the page.  When the consumer answered stop, or the token is empty, or the
batch is empty, the run returns success and this page and its call are the
last ones; otherwise a further call is made (while fuel remains).  No page
before it met one of the three conditions.  Over a transport that never fails
and whose answers all decode, a run has returned success unless all its fuel
went into pages that met none of the conditions. -/
theorem RunPaging_ends_at_first_terminal_page {τ σ ε : Type} (readText : String → JSON)
    (reviews : Reviews)
    (B : Transport τ ε) (f : σ → List Review → σ × Bool) (fuel : Nat) (t : τ) (s : σ)
    (k : Nat) (page : Page)
    (h : (RunPaging readText reviews B f fuel t s).pages.get? k = some page) :
    (∃ call js, (RunPaging readText reviews B f fuel t s).calls.get? k = some call ∧
        call.response = .ok js ∧
        decodeLoop readText (GetJSONArray js [0]) [] = .ok page.results ∧
        page.token = GetJSONValue js [1, 1]) ∧
      page.stop = (f (consumerAfter f s
        ((RunPaging readText reviews B f fuel t s).pages.take k)) page.results).2 ∧
      ((page.stop = true ∨ page.token = "" ∨ page.results = []) →
        (RunPaging readText reviews B f fuel t s).outcome = .returned none ∧
        (RunPaging readText reviews B f fuel t s).pages.length = k + 1 ∧
        (RunPaging readText reviews B f fuel t s).calls.length = k + 1) ∧
      (¬ (page.stop = true ∨ page.token = "" ∨ page.results = []) → k + 1 < fuel →
        k + 1 < (RunPaging readText reviews B f fuel t s).calls.length) ∧
      (∀ j earlier, j < k → (RunPaging readText reviews B f fuel t s).pages.get? j = some earlier →
        ¬ (earlier.stop = true ∨ earlier.token = "" ∨ earlier.results = [])) ∧
      ((∀ t c l payload, ∃ js results, (B t c l payload).2 = .ok js ∧
          decodeLoop readText (GetJSONArray js [0]) [] = .ok results) →
        (RunPaging readText reviews B f fuel t s).outcome = .returned none ∨
        ((RunPaging readText reviews B f fuel t s).outcome = .running ∧
          (RunPaging readText reviews B f fuel t s).pages.length = fuel ∧
          ∀ p ∈ (RunPaging readText reviews B f fuel t s).pages,
            ¬ (p.stop = true ∨ p.token = "" ∨ p.results = []))) := by
  unfold RunPaging at h ⊢
  simp only at h ⊢
  obtain ⟨h1, h2, h3, h4⟩ := pagingLoop_pages readText _ B f fuel t s _ k page h
  refine ⟨h1, h2, ?_, ?_, ?_, ?_⟩
  · intro hterm
    obtain ⟨a, b, c, _⟩ := h3 ((Page.terminal_eq_true_iff page).2 hterm)
    exact ⟨a, b, c⟩
  · intro hterm hlt
    apply h4 _ hlt
    cases hpt : page.terminal with
    | false => rfl
    | true => exact absurd ((Page.terminal_eq_true_iff page).1 hpt) hterm
  · intro j earlier hj hget hterm
    obtain ⟨_, _, h3', _⟩ := pagingLoop_pages readText _ B f fuel t s _ j earlier hget
    obtain ⟨_, b, _⟩ := h3' ((Page.terminal_eq_true_iff earlier).2 hterm)
    have hk := List.get?_eq_some.mp h
    obtain ⟨hlt, _⟩ := hk
    omega
  · intro hB
    rcases pagingLoop_progress readText (clampNumber reviews) B f (fun t payload => hB t _ _ payload)
      fuel t s (initialPayload (clampNumber reviews)) with a | ⟨a, b, c⟩
    · exact Or.inl a
    · refine Or.inr ⟨a, b, ?_⟩
      intro p hp hterm
      have := c p hp
      rw [(Page.terminal_eq_true_iff p).2 hterm] at this
      cases this

/-- An instance: the second page of the run has an empty token; the run
returns success after two calls. -/
theorem RunPaging_ends_at_first_terminal_page_witness :
    (RunPaging sampleReader sampleReviews scripted collect 5
        [.ok (response [alignedRecord] "t1"), .ok (response [alignedRecord] ""),
          .ok (response [alignedRecord] "t3")] []).pages.get? 1
        = some ⟨[alignedReview], "", false⟩ ∧
      (RunPaging sampleReader sampleReviews scripted collect 5
        [.ok (response [alignedRecord] "t1"), .ok (response [alignedRecord] ""),
          .ok (response [alignedRecord] "t3")] []).calls.length = 1 + 1 :=
  ⟨by rfl,
   ((RunPaging_ends_at_first_terminal_page sampleReader sampleReviews scripted collect 5
      [.ok (response [alignedRecord] "t1"), .ok (response [alignedRecord] ""),
        .ok (response [alignedRecord] "t3")] [] 1 ⟨[alignedReview], "", false⟩
      (by rfl)).2.2.1 (Or.inr (Or.inl rfl))).2.2⟩

/-- C6, as stated, fails: with a requested total of 1, a transport whose every
page holds one usable record and a non-empty token, and a consumer that never
signals stop, the run makes a second call, one more than the ceiling of 1/150,
and no amount of fuel lets it return. -/
theorem RunPaging_exceeds_page_bound :
    ((1 : Nat) + 149) / 150 = 1 ∧
      (RunPaging sampleReader singleReviews (constant (response [alignedRecord] "t"))
        collect 2 () []).calls.length = 2 ∧
      ¬ ∃ fuel err,
        (RunPaging sampleReader singleReviews
          (constant (response [alignedRecord] "t")) collect fuel () []).outcome = .returned err := by
  refine ⟨by decide, by rfl, ?_⟩
  rintro ⟨fuel, err, h⟩
  unfold RunPaging at h
  simp only at h
  have hrun := (pagingLoop_running sampleReader (clampNumber singleReviews)
    (constant (response [alignedRecord] "t")) collect
    (fun _ _ => ⟨response [alignedRecord] "t", [alignedReview], rfl, by rfl, by simp,
      by decide⟩)
    (fun _ _ => rfl) fuel () [] (initialPayload (clampNumber singleReviews))).1
  rw [hrun] at h
  cases h

/-- C6, amended: when every answer of the transport decodes to a non-empty
batch with a non-empty token and the consumer never signals stop, the run does
not terminate, whatever the requested total `N`: with any fuel it makes one
call per unit of fuel, one consumer invocation per call, and is still running;
so it makes more than the ceiling of `N / 150` page fetches. -/
theorem RunPaging_runs_on {τ σ ε : Type} (readText : String → JSON)
    (reviews : Reviews) (B : Transport τ ε)
    (f : σ → List Review → σ × Bool)
    (hB : ∀ t c l payload, ∃ js results, (B t c l payload).2 = .ok js ∧
      decodeLoop readText (GetJSONArray js [0]) [] = .ok results ∧ results ≠ [] ∧
      GetJSONValue js [1, 1] ≠ "")
    (hf : ∀ s batch, (f s batch).2 = false) (fuel : Nat) (t : τ) (s : σ) :
    (RunPaging readText reviews B f fuel t s).outcome = .running ∧
      (RunPaging readText reviews B f fuel t s).calls.length = fuel ∧
      (RunPaging readText reviews B f fuel t s).pages.length = fuel ∧
      ((reviews.options.Number + 149) / 150).toNat <
        (RunPaging readText reviews B f
          (((reviews.options.Number + 149) / 150).toNat + 1) t s).calls.length ∧
      (RunPaging readText reviews B f
          (((reviews.options.Number + 149) / 150).toNat + 1) t s).outcome = .running := by
  unfold RunPaging
  have hrun := fun fuel => pagingLoop_running readText (clampNumber reviews) B f
    (fun t payload => hB t _ _ payload) hf fuel t s (initialPayload (clampNumber reviews))
  refine ⟨(hrun fuel).1, (hrun fuel).2.1, (hrun fuel).2.2, ?_, (hrun _).1⟩
  rw [(hrun _).2.1]
  exact Nat.lt_succ_self _

/-- Witness of C6, amended: a requested total of 300 and 7 units of fuel. -/
theorem RunPaging_runs_on_witness :
    (RunPaging sampleReader manyReviews
        (constant (response [alignedRecord] "t")) collect 7 () []).calls.length = 7 :=
  (RunPaging_runs_on sampleReader manyReviews
    (constant (response [alignedRecord] "t")) collect
    (fun _ _ _ _ => ⟨response [alignedRecord] "t", [alignedReview], rfl, by rfl, by simp,
      by decide⟩)
    (fun _ _ => rfl) 7 () []).2.1

/-- C7: when the transport call number `k` of a run fails with error `e`, the
run returns `e`, that call is the last one, the consumer was invoked exactly
for the `k` calls before it, in order and each time with the batch decoded
from the answer to that call, none of these pages was terminal, and the final
state of the consumer is the one after these invocations. -/
theorem RunPaging_returns_transport_error {τ σ ε : Type} (readText : String → JSON)
    (reviews : Reviews)
    (B : Transport τ ε) (f : σ → List Review → σ × Bool) (fuel : Nat) (t : τ) (s : σ)
    (k : Nat) (call : Call ε) (e : ε)
    (h : (RunPaging readText reviews B f fuel t s).calls.get? k = some call)
    (he : call.response = .error e) :
    (RunPaging readText reviews B f fuel t s).outcome = .returned (some e) ∧
      (RunPaging readText reviews B f fuel t s).calls.length = k + 1 ∧
      (RunPaging readText reviews B f fuel t s).pages.length = k ∧
      (RunPaging readText reviews B f fuel t s).consumer
        = consumerAfter f s (RunPaging readText reviews B f fuel t s).pages ∧
      (∀ j page, (RunPaging readText reviews B f fuel t s).pages.get? j = some page →
        page.terminal = false ∧
        ∃ cj js, (RunPaging readText reviews B f fuel t s).calls.get? j = some cj ∧
          cj.response = .ok js ∧
          decodeLoop readText (GetJSONArray js [0]) [] = .ok page.results) := by
  unfold RunPaging at h ⊢
  simp only at h ⊢
  obtain ⟨a, b, c, d, e'⟩ := pagingLoop_failed_call readText _ B f fuel t s _ k call e h he
  refine ⟨a, b, c, e', ?_⟩
  intro j page hj
  refine ⟨d page (List.get?_mem hj), ?_⟩
  obtain ⟨⟨cj, js, h1, h2, h3, _⟩, _⟩ := pagingLoop_pages readText _ B f fuel t s _ j page hj
  exact ⟨cj, js, h1, h2, h3⟩

/-- Witness of C7: the second call of the run fails; one batch was handed to
the consumer. -/
theorem RunPaging_returns_transport_error_witness :
    (RunPaging sampleReader sampleReviews scripted collect 5
        [.ok (response [alignedRecord] "t1"), .error "boom",
          .ok (response [alignedRecord] "t3")] []).calls.length = 1 + 1 ∧
      (RunPaging sampleReader sampleReviews scripted collect 5
        [.ok (response [alignedRecord] "t1"), .error "boom",
          .ok (response [alignedRecord] "t3")] []).pages.length = 1 :=
  have h := RunPaging_returns_transport_error sampleReader sampleReviews scripted collect 5
    [.ok (response [alignedRecord] "t1"), .error "boom",
      .ok (response [alignedRecord] "t3")] [] 1
    ⟨paginatedPayload (clampNumber sampleReviews) "t1", .error "boom"⟩ "boom" (by rfl) rfl
  ⟨h.2.1, h.2.2.1⟩

/-- C8: when the transport answers a call with the response `js`, a batch that
`batchexecute` returns is the filter-map of `Parse` over the raw records at
root index 0, each read from its text `review.String()`, in their order, so it
is no longer than the record list, and the token it returns is the value at
path `"1.1"`; `batchexecute` returns that batch and token whenever `Parse`
completes on every record.  The text of a record that is a JSON string is the
content of the string, read as JSON text; any other record is read as
itself. -/
theorem batchexecute_batch {τ ε : Type} (readText : String → JSON)
    (reviews : Reviews) (B : Transport τ ε) (t t' : τ)
    (payload : String) (js : JSON)
    (hB : B t reviews.options.Country reviews.options.Language payload = (t', .ok js)) :
    (∀ results token, batchexecute readText reviews B t payload = (t', .page results token) →
        results = (GetJSONArray js [0]).filterMap (decoded readText) ∧
        (∀ r ∈ GetJSONArray js [0], ∃ o,
          Parse (recordText readText r) = .ok o ∧ decoded readText r = o) ∧
        results.length ≤ (GetJSONArray js [0]).length ∧
        token = GetJSONValue js [1, 1]) ∧
      ((∀ r ∈ GetJSONArray js [0], ∃ o, Parse (recordText readText r) = .ok o) →
        batchexecute readText reviews B t payload
          = (t', .page ((GetJSONArray js [0]).filterMap (decoded readText))
              (GetJSONValue js [1, 1]))) ∧
      (∀ records, valueAt js [0] = some (.arr records) → GetJSONArray js [0] = records) ∧
      (∀ text, recordText readText (.str text) = readText text) ∧
      (∀ r, (∀ text, r ≠ .str text) → recordText readText r = r) := by
  refine ⟨?_, ?_, ?_, fun _ => rfl, ?_⟩
  · intro results token h
    unfold batchexecute at h
    rw [hB] at h
    simp only [decodeResponse] at h
    cases hd : decodeLoop readText (GetJSONArray js [0]) [] with
    | error p =>
      rw [hd] at h
      simp at h
    | ok rs =>
      rw [hd] at h
      simp only [Prod.mk.injEq, Fetched.page.injEq, true_and] at h
      obtain ⟨hr, ht⟩ := h
      subst hr
      obtain ⟨a, b⟩ := decodeLoop_eq readText _ _ _ hd
      rw [List.nil_append] at a
      refine ⟨a, ?_, ?_, ht.symm⟩
      · intro r hr
        obtain ⟨o, ho⟩ := b r hr
        exact ⟨o, ho, by simp [decoded, ho]⟩
      · rw [a]
        exact List.length_filterMap_le _ _
  · intro hall
    unfold batchexecute
    rw [hB]
    simp only [decodeResponse]
    rw [decodeLoop_ok readText _ _ hall]
    simp
  · intro records h
    simp [GetJSONArray, h, JSON.asArray]
  · intro r hr
    cases r with
    | str text => exact absurd rfl (hr text)
    | null => rfl
    | bool b => rfl
    | num n => rfl
    | arr xs => rfl

set_option maxRecDepth 100000 in
/-- Witness of C8: a response with a usable record, a record without body
text and a record that is a JSON string holding the text of a usable record
gives a batch of two Reviews. -/
theorem batchexecute_batch_witness :
    batchexecute sampleReader sampleReviews scripted
        [.ok (response [alignedRecord, .arr [.str "r2"], .str alignedRecord.raw] "t1")]
        "payload"
      = ([], .page [alignedReview, alignedReview] "t1") :=
  (batchexecute_batch sampleReader sampleReviews scripted
    [.ok (response [alignedRecord, .arr [.str "r2"], .str alignedRecord.raw] "t1")] []
    "payload"
    (response [alignedRecord, .arr [.str "r2"], .str alignedRecord.raw] "t1") rfl).2.1
    (by
      intro r hr
      have hl : GetJSONArray
          (response [alignedRecord, .arr [.str "r2"], .str alignedRecord.raw] "t1") [0]
          = [alignedRecord, .arr [.str "r2"], .str alignedRecord.raw] := by rfl
      rw [hl] at hr
      simp only [List.mem_cons, List.mem_singleton, List.not_mem_nil, or_false] at hr
      rcases hr with rfl | rfl | rfl
      · exact ⟨some alignedReview, by rfl⟩
      · exact ⟨none, by rfl⟩
      · exact ⟨some alignedReview, by rfl⟩)

/-! ## Lemmas on the payloads -/

set_option maxRecDepth 100000 in
theorem initialPayload_data (reviews : Reviews) :
    (initialPayload reviews).data =
      "f.req=%5B%5B%5B%22UsvDTd%22%2C%22%5Bnull%2Cnull%2C%5B2%2C".data ++
        ((Itoa reviews.options.Sorting).data ++ ("%2C%5B".data ++
          ((Itoa reviews.options.Number).data ++
            ("%2Cnull%2Cnull%5D%2Cnull%2C%5B%5D%5D%2C%5B%5C%22".data ++
              (reviews.appID.data ++
                "%5C%22%2C7%5D%5D%22%2Cnull%2C%22generic%22%5D%5D%5D".data))))) := by
  rfl

set_option maxRecDepth 100000 in
theorem paginatedPayload_data (reviews : Reviews) (token : String) :
    (paginatedPayload reviews token).data =
      "f.req=%5B%5B%5B%22UsvDTd%22%2C%22%5Bnull%2Cnull%2C%5B2%2C".data ++
        ((Itoa reviews.options.Sorting).data ++ ("%2C%5B".data ++
          ((Itoa reviews.options.Number).data ++
            ("%2Cnull%2C%5C%22".data ++ (token.data ++
              ("%5C%22%5D%2Cnull%2C%5B%5D%5D%2C%5B%5C%22".data ++
                (reviews.appID.data ++
                  "%5C%22%2C7%5D%5D%22%2Cnull%2C%22generic%22%5D%5D%5D".data))))))) := by
  rfl

/-- The first payload is the fixed text with the sort code, the page size, no
token and the application identifier. -/
theorem initialPayload_eq (reviews : Reviews) :
    initialPayload reviews
      = payloadWith reviews.options.Sorting reviews.options.Number noToken reviews.appID := by
  apply String.ext
  rw [initialPayload_data]
  simp only [payloadWith, noToken, String.data_append, List.append_assoc]
  rfl

/-- A continuation payload is the fixed text with the sort code, the page
size, the quoted token and the application identifier. -/
theorem paginatedPayload_eq (reviews : Reviews) (token : String) :
    paginatedPayload reviews token
      = payloadWith reviews.options.Sorting reviews.options.Number (quotedToken token)
          reviews.appID := by
  apply String.ext
  rw [paginatedPayload_data]
  simp only [payloadWith, quotedToken, String.data_append, List.append_assoc]
  rfl

theorem clampNumber_options (reviews : Reviews) :
    (clampNumber reviews).appID = reviews.appID ∧
      (clampNumber reviews).options.Country = reviews.options.Country ∧
      (clampNumber reviews).options.Language = reviews.options.Language ∧
      (clampNumber reviews).options.Sorting = reviews.options.Sorting ∧
      (clampNumber reviews).options.Number
        = min reviews.options.Number maxNumberOfReviewsPerRequest := by
  unfold clampNumber
  by_cases h : reviews.options.Number > maxNumberOfReviewsPerRequest
  · rw [if_pos h]
    refine ⟨rfl, rfl, rfl, rfl, ?_⟩
    simp only
    rw [min_eq_right (le_of_lt h)]
  · rw [if_neg h]
    refine ⟨rfl, rfl, rfl, rfl, ?_⟩
    rw [min_eq_left (not_lt.mp h)]

/-! ## Lemmas on the decimal reading -/

theorem digitsValue_eq (cs : List Char) :
    digitsValue cs = if cs.isEmpty then none else cs.foldl digitStep (some 0) := by
  rfl

theorem digitChar_isDigit (d : Nat) (hd : d < 10) :
    (Nat.digitChar d).isDigit = true ∧ (Nat.digitChar d).toNat - 48 = d := by
  interval_cases d <;> exact ⟨by decide, by decide⟩

theorem foldl_digitStep_none (cs : List Char) : cs.foldl digitStep none = none := by
  induction cs with
  | nil => rfl
  | cons c cs ih => simpa [List.foldl_cons, digitStep] using ih

theorem foldl_digitStep_toDigitsCore (fuel n : Nat) (ds : List Char) (h : n < fuel) :
    (Nat.toDigitsCore 10 fuel n ds).foldl digitStep (some 0) = ds.foldl digitStep (some n) := by
  induction fuel generalizing n ds with
  | zero => omega
  | succ fuel ih =>
    rw [Nat.toDigitsCore]
    obtain ⟨hd1, hd2⟩ := digitChar_isDigit (n % 10) (Nat.mod_lt _ (by decide))
    by_cases h0 : n / 10 = 0
    · rw [if_pos h0, List.foldl_cons]
      have hn : n % 10 = n := Nat.mod_eq_of_lt (by omega)
      simp only [digitStep, hd1, if_true, hd2, Nat.zero_mul, Nat.zero_add]
      rw [hn]
    · rw [if_neg h0, ih (n / 10) _ (by omega), List.foldl_cons]
      have hn : n / 10 * 10 + n % 10 = n := by omega
      simp only [digitStep, hd1, if_true, hd2, hn]

theorem toDigitsCore_ne_nil (fuel n : Nat) (ds : List Char) :
    Nat.toDigitsCore 10 (fuel + 1) n ds ≠ [] := by
  induction fuel generalizing n ds with
  | zero =>
    rw [Nat.toDigitsCore]
    split
    · simp
    · simp [Nat.toDigitsCore]
  | succ fuel ih =>
    rw [Nat.toDigitsCore]
    split
    · simp
    · exact ih _ _

/-- The digits of a natural number read back as that number. -/
theorem digitsValue_toDigits (n : Nat) : digitsValue (Nat.toDigits 10 n) = some n := by
  rw [digitsValue_eq]
  unfold Nat.toDigits
  have hne := toDigitsCore_ne_nil n n []
  have hemp : (Nat.toDigitsCore 10 (n + 1) n []).isEmpty = false := by
    cases hl : Nat.toDigitsCore 10 (n + 1) n [] with
    | nil => exact absurd hl hne
    | cons c cs => rfl
  rw [hemp]
  simp only [Bool.false_eq_true, if_false]
  rw [foldl_digitStep_toDigitsCore _ _ _ (Nat.lt_succ_self n)]
  rfl

theorem digitsValue_cons_not_digit (c : Char) (cs : List Char) (h : c.isDigit = false) :
    digitsValue (c :: cs) = none := by
  rw [digitsValue_eq]
  simp only [List.isEmpty_cons, Bool.false_eq_true, if_false, List.foldl_cons, digitStep, h]
  exact foldl_digitStep_none cs

/-- The decimal text of an integer reads back as that integer. -/
theorem decimal_toString (n : Int) : decimal (toString n) = some n := by
  cases n with
  | ofNat m =>
    have hs : (toString (Int.ofNat m)).data = Nat.toDigits 10 m := rfl
    unfold decimal
    rw [hs]
    have hv := digitsValue_toDigits m
    cases hl : Nat.toDigits 10 m with
    | nil =>
      rw [hl] at hv
      simp [digitsValue_eq] at hv
    | cons c cs =>
      rw [hl] at hv
      simp only
      have hminus : c ≠ '-' := by
        intro hc
        rw [hc, digitsValue_cons_not_digit '-' cs (by decide)] at hv
        cases hv
      have hplus : c ≠ '+' := by
        intro hc
        rw [hc, digitsValue_cons_not_digit '+' cs (by decide)] at hv
        cases hv
      rw [if_neg hminus, if_neg hplus, hv]
      rfl
  | negSucc m =>
    have hs : (toString (Int.negSucc m)).data = '-' :: Nat.toDigits 10 (m + 1) := rfl
    unfold decimal
    rw [hs]
    simp only [if_true]
    rw [digitsValue_toDigits]
    rfl

/-- An integer of the 64-bit range, written in decimal, decodes to itself. -/
theorem parseInt_toString (n : Int) (h : - 2 ^ 63 ≤ n ∧ n < 2 ^ 63) :
    parseInt (toString n) = n := by
  unfold parseInt
  rw [decimal_toString]
  simp only
  rw [if_pos h]

theorem parseInt_empty : parseInt "" = 0 := by
  rfl

/-- A text whose first character is neither a sign nor a digit decodes to
zero. -/
theorem parseInt_of_first_not_digit (s : String) (c : Char) (cs : List Char)
    (hs : s.data = c :: cs) (hm : c ≠ '-') (hp : c ≠ '+') (hd : c.isDigit = false) :
    parseInt s = 0 := by
  unfold parseInt decimal
  rw [hs]
  simp only
  rw [if_neg hm, if_neg hp, digitsValue_cons_not_digit c cs hd]
  rfl

/-- A non-empty run of characters none of which is a digit has no value. -/
theorem digitsValue_no_digit (cs : List Char) (h : ∀ c ∈ cs, c.isDigit = false) :
    digitsValue cs = none := by
  cases cs with
  | nil => rfl
  | cons c cs => exact digitsValue_cons_not_digit c cs (h c (List.mem_cons_self _ _))

/-- A text none of whose characters is a digit decodes to zero. -/
theorem parseInt_no_digit (s : String) (h : ∀ c ∈ s.data, c.isDigit = false) :
    parseInt s = 0 := by
  unfold parseInt decimal
  cases hs : s.data with
  | nil => rfl
  | cons c cs =>
    rw [hs] at h
    simp only
    have htail : digitsValue cs = none :=
      digitsValue_no_digit cs (fun x hx => h x (List.mem_cons_of_mem _ hx))
    have hall : digitsValue (c :: cs) = none := digitsValue_no_digit (c :: cs) h
    rw [htail, hall]
    by_cases hm : c = '-'
    · simp [hm]
    · by_cases hp : c = '+'
      · simp [hp]
      · simp [hm, hp]

theorem foldl_digitStep_of_not_digit (cs : List Char) (acc : Option Nat)
    (h : cs.all Char.isDigit = false) : cs.foldl digitStep acc = none := by
  induction cs generalizing acc with
  | nil => simp at h
  | cons c cs ih =>
    rw [List.foldl_cons]
    cases hc : c.isDigit with
    | false =>
      have : digitStep acc c = none := by
        cases acc <;> simp [digitStep, hc]
      rw [this]
      exact foldl_digitStep_none cs
    | true =>
      apply ih
      simpa [List.all_cons, hc] using h

/-- A run of characters that is not a non-empty run of digits has no value. -/
theorem digitsValue_of_not_allDigits (cs : List Char) (h : allDigits cs = false) :
    digitsValue cs = none := by
  rw [digitsValue_eq]
  cases hemp : cs.isEmpty with
  | true => simp
  | false =>
    simp only [Bool.false_eq_true, if_false]
    apply foldl_digitStep_of_not_digit
    simpa [allDigits, hemp] using h

/-- A text that is not numeric decodes to zero. -/
theorem parseInt_of_not_numeral (s : String) (h : isNumeral s = false) : parseInt s = 0 := by
  unfold isNumeral at h
  unfold parseInt decimal
  cases hs : s.data with
  | nil => rfl
  | cons c cs =>
    rw [hs] at h
    simp only at h ⊢
    by_cases hm : c = '-'
    · have hcs : allDigits cs = false := by simpa [hm] using h
      simp [hm, digitsValue_of_not_allDigits cs hcs]
    · by_cases hp : c = '+'
      · have hcs : allDigits cs = false := by simpa [hp] using h
        simp [hp, digitsValue_of_not_allDigits cs hcs]
      · have hcs : allDigits (c :: cs) = false := by simpa [hm, hp] using h
        simp [hm, hp, digitsValue_of_not_allDigits (c :: cs) hcs]

theorem GetJSONValue_num (data : JSON) (path : List Nat) (n : Int)
    (h : valueAt data path = some (.num n)) : GetJSONValue data path = toString n := by
  simp [GetJSONValue, h, JSON.asString, JSON.raw]

theorem GetJSONValue_str (data : JSON) (path : List Nat) (s : String)
    (h : valueAt data path = some (.str s)) : GetJSONValue data path = s := by
  simp [GetJSONValue, h, JSON.asString]

theorem GetJSONValue_absent (data : JSON) (path : List Nat)
    (h : valueAt data path = none) : GetJSONValue data path = "" := by
  simp [GetJSONValue, h]

/-- The text of a nested array decodes to zero. -/
theorem parseInt_GetJSONValue_arr (data : JSON) (path : List Nat) (xs : List JSON)
    (h : valueAt data path = some (.arr xs)) : parseInt (GetJSONValue data path) = 0 := by
  have hs : GetJSONValue data path = "[" ++ rawList xs ++ "]" := by
    simp [GetJSONValue, h, JSON.asString, JSON.raw]
  rw [hs]
  apply parseInt_of_first_not_digit _ '[' ((rawList xs).data ++ "]".data)
  · simp [String.data_append]
  · decide
  · decide
  · decide

/-! ## Further lemmas on the pagination loop -/

/-- The payload of the first call of the loop is the payload the loop was
entered with, and the payload of any later call is the continuation payload
built from the token of the page before it. -/
theorem pagingLoop_payloads {τ σ ε : Type} (readText : String → JSON)
    (reviews : Reviews) (B : Transport τ ε)
    (f : σ → List Review → σ × Bool) (fuel : Nat) (t : τ) (s : σ) (payload : String)
    (k : Nat) (call : Call ε)
    (h : (pagingLoop readText reviews B f fuel t s payload).calls.get? k = some call) :
    (k = 0 → call.payload = payload) ∧
      (∀ i, k = i + 1 → ∃ page,
        (pagingLoop readText reviews B f fuel t s payload).pages.get? i = some page ∧
        call.payload = paginatedPayload reviews page.token) := by
  induction fuel generalizing t s payload k with
  | zero => simp [pagingLoop] at h
  | succ fuel ih =>
    rw [pagingLoop_succ] at h ⊢
    cases hB : B t reviews.options.Country reviews.options.Language payload with
    | mk t' ans =>
      rw [hB] at h
      cases ans with
      | error err =>
        simp only at h ⊢
        cases k with
        | zero =>
          simp only [List.get?_cons_zero, Option.some.injEq] at h
          subst h
          exact ⟨fun _ => rfl, fun i hi => by omega⟩
        | succ k => simp at h
      | ok js =>
        simp only at h ⊢
        cases hd : decodeLoop readText (GetJSONArray js [0]) [] with
        | error p =>
          rw [hd] at h
          simp only at h
          cases k with
          | zero =>
            simp only [List.get?_cons_zero, Option.some.injEq] at h
            subst h
            exact ⟨fun _ => rfl, fun i hi => by omega⟩
          | succ k => simp at h
        | ok results =>
          rw [hd] at h
          simp only at h ⊢
          by_cases hterm : Page.terminal ⟨results, GetJSONValue js [1, 1], (f s results).2⟩ = true
          · rw [if_pos hterm] at h
            simp only at h
            cases k with
            | zero =>
              simp only [List.get?_cons_zero, Option.some.injEq] at h
              subst h
              exact ⟨fun _ => rfl, fun i hi => by omega⟩
            | succ k => simp at h
          · rw [if_neg hterm] at h ⊢
            simp only at h ⊢
            cases k with
            | zero =>
              simp only [List.get?_cons_zero, Option.some.injEq] at h
              subst h
              exact ⟨fun _ => rfl, fun i hi => by omega⟩
            | succ k =>
              simp only [List.get?_cons_succ] at h
              obtain ⟨h0, hs⟩ := ih t' (f s results).1
                (paginatedPayload reviews (GetJSONValue js [1, 1])) k h
              refine ⟨fun hk => by omega, ?_⟩
              intro i hi
              have hki : k = i := by omega
              subst hki
              cases k with
              | zero =>
                exact ⟨⟨results, GetJSONValue js [1, 1], (f s results).2⟩, rfl, h0 rfl⟩
              | succ j =>
                obtain ⟨page, hp, hpay⟩ := hs j rfl
                exact ⟨page, by simpa using hp, hpay⟩

/-- A call that the transport answered either decoded to the batch of the
consumer invocation of the same number, or failed to decode, in which case
the run stopped there with that failure. -/
theorem pagingLoop_calls_ok {τ σ ε : Type} (readText : String → JSON)
    (reviews : Reviews) (B : Transport τ ε)
    (f : σ → List Review → σ × Bool) (fuel : Nat) (t : τ) (s : σ) (payload : String)
    (k : Nat) (call : Call ε) (js : JSON)
    (h : (pagingLoop readText reviews B f fuel t s payload).calls.get? k = some call)
    (hok : call.response = .ok js) :
    (∃ page, (pagingLoop readText reviews B f fuel t s payload).pages.get? k = some page ∧
        decodeLoop readText (GetJSONArray js [0]) [] = .ok page.results ∧
        page.token = GetJSONValue js [1, 1]) ∨
      (∃ p, (pagingLoop readText reviews B f fuel t s payload).outcome = .panicked p ∧
        decodeLoop readText (GetJSONArray js [0]) [] = .error p) := by
  induction fuel generalizing t s payload k with
  | zero => simp [pagingLoop] at h
  | succ fuel ih =>
    rw [pagingLoop_succ] at h ⊢
    cases hB : B t reviews.options.Country reviews.options.Language payload with
    | mk t' ans =>
      rw [hB] at h
      cases ans with
      | error err =>
        simp only at h ⊢
        cases k with
        | zero =>
          simp only [List.get?_cons_zero, Option.some.injEq] at h
          subst h
          cases hok
        | succ k => simp at h
      | ok js' =>
        simp only at h ⊢
        cases hd : decodeLoop readText (GetJSONArray js' [0]) [] with
        | error p =>
          rw [hd] at h
          simp only at h
          cases k with
          | zero =>
            simp only [List.get?_cons_zero, Option.some.injEq] at h
            subst h
            simp only [Except.ok.injEq] at hok
            subst hok
            exact Or.inr ⟨p, rfl, hd⟩
          | succ k => simp at h
        | ok results =>
          rw [hd] at h
          simp only at h ⊢
          by_cases hterm : Page.terminal ⟨results, GetJSONValue js' [1, 1], (f s results).2⟩ = true
          · rw [if_pos hterm] at h ⊢
            simp only at h ⊢
            cases k with
            | zero =>
              simp only [List.get?_cons_zero, Option.some.injEq] at h
              subst h
              simp only [Except.ok.injEq] at hok
              subst hok
              exact Or.inl ⟨_, rfl, hd, rfl⟩
            | succ k => simp at h
          · rw [if_neg hterm] at h ⊢
            simp only at h ⊢
            cases k with
            | zero =>
              simp only [List.get?_cons_zero, Option.some.injEq] at h
              subst h
              simp only [Except.ok.injEq] at hok
              subst hok
              exact Or.inl ⟨_, rfl, hd, rfl⟩
            | succ k =>
              simp only [List.get?_cons_succ] at h
              rcases ih t' (f s results).1
                (paginatedPayload reviews (GetJSONValue js' [1, 1])) k h with hl | hr
              · exact Or.inl (by simpa using hl)
              · exact Or.inr hr

/-- The final state of the consumer is its state after the invocations on the
pages of the run, in order; the run made as many consumer invocations as the
transport answered calls, less the call whose decoding failed, if any. -/
theorem pagingLoop_consumer {τ σ ε : Type} (readText : String → JSON)
    (reviews : Reviews) (B : Transport τ ε)
    (f : σ → List Review → σ × Bool) (fuel : Nat) (t : τ) (s : σ) (payload : String) :
    (pagingLoop readText reviews B f fuel t s payload).consumer
        = consumerAfter f s (pagingLoop readText reviews B f fuel t s payload).pages ∧
      ((∀ p, (pagingLoop readText reviews B f fuel t s payload).outcome ≠ .panicked p) →
        (pagingLoop readText reviews B f fuel t s payload).pages.length
          = (pagingLoop readText reviews B f fuel t s payload).calls.countP Call.succeeded) := by
  induction fuel generalizing t s payload with
  | zero => simp [pagingLoop, consumerAfter]
  | succ fuel ih =>
    rw [pagingLoop_succ]
    cases hB : B t reviews.options.Country reviews.options.Language payload with
    | mk t' ans =>
      cases ans with
      | error err => simp [consumerAfter, Call.succeeded]
      | ok js =>
        simp only
        cases hd : decodeLoop readText (GetJSONArray js [0]) [] with
        | error p =>
          simp only
          refine ⟨by simp [consumerAfter], ?_⟩
          intro hnp
          exact absurd rfl (hnp p)
        | ok results =>
          simp only
          by_cases hterm : Page.terminal ⟨results, GetJSONValue js [1, 1], (f s results).2⟩ = true
          · rw [if_pos hterm]
            simp [consumerAfter, Call.succeeded]
          · rw [if_neg hterm]
            obtain ⟨a, b⟩ := ih t' (f s results).1
              (paginatedPayload reviews (GetJSONValue js [1, 1]))
            refine ⟨by simpa [consumerAfter] using a, ?_⟩
            intro hnp
            simp only [List.length_cons]
            rw [List.countP_cons_of_pos _ _ (by simp [Call.succeeded]), b hnp]

/-! ## The request payloads -/

/-- C11: the payload of every call of a run, the first one and every
continuation, embeds the same sort code, the same application identifier and
the same page size, which is the minimum of the configured `Number` and 150
and so is at most 150. -/
theorem RunPaging_payload_parameters {τ σ ε : Type} (readText : String → JSON)
    (reviews : Reviews)
    (B : Transport τ ε) (f : σ → List Review → σ × Bool) (fuel : Nat) (t : τ) (s : σ)
    (k : Nat) (call : Call ε)
    (h : (RunPaging readText reviews B f fuel t s).calls.get? k = some call) :
    (∃ tokenField, call.payload
        = payloadWith reviews.options.Sorting (min reviews.options.Number 150) tokenField
            reviews.appID) ∧
      min reviews.options.Number 150 ≤ 150 := by
  refine ⟨?_, min_le_right _ _⟩
  unfold RunPaging at h
  simp only at h
  obtain ⟨ha, _, _, hs, hn⟩ := clampNumber_options reviews
  have hn' : (clampNumber reviews).options.Number = min reviews.options.Number 150 := hn
  obtain ⟨h0, hsucc⟩ := pagingLoop_payloads readText _ B f fuel t s _ k call h
  cases k with
  | zero =>
    refine ⟨noToken, ?_⟩
    rw [h0 rfl, initialPayload_eq, ha, hs, hn']
  | succ i =>
    obtain ⟨page, _, hpay⟩ := hsucc i rfl
    refine ⟨quotedToken page.token, ?_⟩
    rw [hpay, paginatedPayload_eq, ha, hs, hn']

/-- Witness of C11: the second call of a run configured with `Number` 200
asks for 150 reviews. -/
theorem RunPaging_payload_parameters_witness :
    ∃ tokenField, paginatedPayload (clampNumber sampleReviews) "t1"
      = payloadWith 2 (min 200 150) tokenField "com.example.app" :=
  (RunPaging_payload_parameters sampleReader sampleReviews scripted collect 5
    [.ok (response [alignedRecord] "t1"), .ok (response [alignedRecord] "")] [] 1
    ⟨paginatedPayload (clampNumber sampleReviews) "t1", .ok (response [alignedRecord] "")⟩
    (by rfl)).1

/-- C12: the first call of a run sends the initial template filled with the
sort code, the page size and the application identifier, without a token; a
later call sends the continuation template filled with the same three values
and with the token read at path `"1.1"` of the answer to the call just before
it. -/
theorem RunPaging_payload_sequence {τ σ ε : Type} (readText : String → JSON)
    (reviews : Reviews)
    (B : Transport τ ε) (f : σ → List Review → σ × Bool) (fuel : Nat) (t : τ) (s : σ)
    (k : Nat) (call : Call ε)
    (h : (RunPaging readText reviews B f fuel t s).calls.get? k = some call) :
    (k = 0 →
        call.payload = initialPayload (clampNumber reviews) ∧
        call.payload = payloadWith reviews.options.Sorting (min reviews.options.Number 150)
          noToken reviews.appID) ∧
      (∀ i, k = i + 1 → ∃ before js,
        (RunPaging readText reviews B f fuel t s).calls.get? i = some before ∧
        before.response = .ok js ∧
        call.payload = paginatedPayload (clampNumber reviews) (GetJSONValue js [1, 1]) ∧
        call.payload = payloadWith reviews.options.Sorting (min reviews.options.Number 150)
          (quotedToken (GetJSONValue js [1, 1])) reviews.appID) := by
  unfold RunPaging at h ⊢
  simp only at h ⊢
  obtain ⟨ha, _, _, hs, hn⟩ := clampNumber_options reviews
  have hn' : (clampNumber reviews).options.Number = min reviews.options.Number 150 := hn
  obtain ⟨h0, hsucc⟩ := pagingLoop_payloads readText _ B f fuel t s _ k call h
  refine ⟨?_, ?_⟩
  · intro hk
    refine ⟨h0 hk, ?_⟩
    rw [h0 hk, initialPayload_eq, ha, hs, hn']
  · intro i hi
    obtain ⟨page, hp, hpay⟩ := hsucc i hi
    obtain ⟨⟨before, js, hb, hbok, _, htok⟩, _⟩ :=
      pagingLoop_pages readText _ B f fuel t s _ i page hp
    refine ⟨before, js, hb, hbok, ?_, ?_⟩
    · rw [hpay, htok]
    · rw [hpay, htok, paginatedPayload_eq, ha, hs, hn']

/-- Witness of C12: the second call of a run carries the token `"t1"` of the
first answer. -/
theorem RunPaging_payload_sequence_witness :
    ∃ before js,
      (RunPaging sampleReader sampleReviews scripted collect 5
        [.ok (response [alignedRecord] "t1"), .ok (response [alignedRecord] "")] []).calls.get? 0
        = some before ∧
      before.response = .ok js ∧
      paginatedPayload (clampNumber sampleReviews) "t1"
        = paginatedPayload (clampNumber sampleReviews) (GetJSONValue js [1, 1]) ∧
      paginatedPayload (clampNumber sampleReviews) "t1"
        = payloadWith 2 (min 200 150) (quotedToken (GetJSONValue js [1, 1])) "com.example.app" :=
  (RunPaging_payload_sequence sampleReader sampleReviews scripted collect 5
    [.ok (response [alignedRecord] "t1"), .ok (response [alignedRecord] "")] [] 1
    ⟨paginatedPayload (clampNumber sampleReviews) "t1", .ok (response [alignedRecord] "")⟩
    (by rfl)).2 0 rfl

/-! ## Consumer invocations -/

/-- C13: when the first answer of the transport holds 150 usable records and a
non-empty token, the second answer holds no record and the consumer never
signals stop, the run makes exactly two calls and returns success, and the
batches handed to the consumer are the 150 decoded records of the first page,
in order, followed by an empty batch. -/
theorem RunPaging_two_pages {τ σ ε : Type} (readText : String → JSON)
    (reviews : Reviews) (B : Transport τ ε)
    (f : σ → List Review → σ × Bool) (fuel : Nat) (t0 t1 t2 : τ) (s : σ)
    (js1 js2 : JSON) (records : List JSON) (token : String)
    (h1 : B t0 reviews.options.Country reviews.options.Language
      (initialPayload (clampNumber reviews)) = (t1, .ok js1))
    (hrec : GetJSONArray js1 [0] = records) (hlen : records.length = 150)
    (husable : ∀ r ∈ records, ∃ rv, Parse (recordText readText r) = .ok (some rv))
    (htok : GetJSONValue js1 [1, 1] = token) (hne : token ≠ "")
    (h2 : B t1 reviews.options.Country reviews.options.Language
      (paginatedPayload (clampNumber reviews) token) = (t2, .ok js2))
    (hempty : GetJSONArray js2 [0] = [])
    (hf : ∀ s batch, (f s batch).2 = false) :
    (RunPaging readText reviews B f (fuel + 2) t0 s).outcome = .returned none ∧
      (RunPaging readText reviews B f (fuel + 2) t0 s).calls.length = 2 ∧
      (RunPaging readText reviews B f (fuel + 2) t0 s).pages.map Page.results
        = [records.filterMap (decoded readText), []] ∧
      (records.filterMap (decoded readText)).length = 150 ∧
      ((RunPaging readText reviews B f (fuel + 2) t0 s).pages.map Page.results).flatten
        = records.filterMap (decoded readText) ∧
      (RunPaging readText reviews B f (fuel + 2) t0 s).consumer
        = (f (f s (records.filterMap (decoded readText))).1 []).1 := by
  obtain ⟨_, hc, hl, _, _⟩ := clampNumber_options reviews
  have hdec1 : decodeLoop readText (GetJSONArray js1 [0]) []
      = .ok (records.filterMap (decoded readText)) := by
    rw [hrec, decodeLoop_ok readText records [] (fun r hr => by
      obtain ⟨rv, hrv⟩ := husable r hr
      exact ⟨some rv, hrv⟩)]
    rfl
  have hcount : (records.filterMap (decoded readText)).length = 150 := by
    rw [← hlen]
    clear hdec1 hlen hrec
    induction records with
    | nil => rfl
    | cons r rest ih =>
      obtain ⟨rv, hrv⟩ := husable r (List.mem_cons_self _ _)
      have hd : decoded readText r = some rv := by simp [decoded, hrv]
      rw [List.filterMap_cons_some hd, List.length_cons, List.length_cons,
        ih (fun x hx => husable x (List.mem_cons_of_mem _ hx))]
  have hnonempty : records.filterMap (decoded readText) ≠ [] := by
    intro he
    rw [he] at hcount
    cases hcount
  have hdec2 : decodeLoop readText (GetJSONArray js2 [0]) [] = .ok [] := by
    rw [hempty]
    rfl
  have hterm1 : ¬ Page.terminal ⟨records.filterMap (decoded readText), GetJSONValue js1 [1, 1],
      (f s (records.filterMap (decoded readText))).2⟩ = true := by
    rw [Page.terminal_eq_true_iff]
    simp [hf, htok, hne, hnonempty]
  have hterm2 : Page.terminal ⟨[], GetJSONValue js2 [1, 1],
      (f (f s (records.filterMap (decoded readText))).1 []).2⟩ = true := by
    rw [Page.terminal_eq_true_iff]
    simp
  have hrun : RunPaging readText reviews B f (fuel + 2) t0 s =
      { outcome := .returned none
        calls := [⟨initialPayload (clampNumber reviews), .ok js1⟩,
          ⟨paginatedPayload (clampNumber reviews) token, .ok js2⟩]
        pages := [⟨records.filterMap (decoded readText), token,
            (f s (records.filterMap (decoded readText))).2⟩,
          ⟨[], GetJSONValue js2 [1, 1],
            (f (f s (records.filterMap (decoded readText))).1 []).2⟩]
        transport := t2
        consumer := (f (f s (records.filterMap (decoded readText))).1 []).1 } := by
    unfold RunPaging
    simp only
    rw [pagingLoop_succ, hc, hl, h1]
    simp only [hdec1]
    rw [if_neg hterm1, htok, pagingLoop_succ, hc, hl, h2]
    simp only [hdec2]
    rw [if_pos hterm2]
  rw [hrun]
  exact ⟨rfl, rfl, rfl, hcount, by simp, rfl⟩

/-- Witness of C13: a scripted transport with 150 copies of `alignedRecord`
on the first page and an empty second page. -/
theorem RunPaging_two_pages_witness :
    (RunPaging sampleReader sampleReviews scripted collect (3 + 2)
        [.ok (response (List.replicate 150 alignedRecord) "t1"), .ok (response [] "")] []).calls.length
      = 2 :=
  (RunPaging_two_pages sampleReader sampleReviews scripted collect 3
    [.ok (response (List.replicate 150 alignedRecord) "t1"), .ok (response [] "")]
    [.ok (response [] "")] [] []
    (response (List.replicate 150 alignedRecord) "t1") (response [] "")
    (List.replicate 150 alignedRecord) "t1"
    rfl rfl (List.length_replicate 150 alignedRecord)
    (fun r hr => ⟨alignedReview, by rw [List.eq_of_mem_replicate hr]; rfl⟩)
    rfl (by decide) rfl rfl (fun _ _ => rfl)).2.1

/-- In a run that no decoding failure interrupts, the consumer is invoked
once for every call that the transport answered, in the order of the calls and
with the batch decoded from the answer, also when that batch is empty or the
token of the page is empty; there are as many consumer invocations as answered
calls, and the final state of the consumer is its state after these
invocations. -/
theorem RunPaging_consumer_invocations {τ σ ε : Type} (readText : String → JSON)
    (reviews : Reviews)
    (B : Transport τ ε) (f : σ → List Review → σ × Bool) (fuel : Nat) (t : τ) (s : σ)
    (hnp : ∀ p, (RunPaging readText reviews B f fuel t s).outcome ≠ .panicked p) :
    (RunPaging readText reviews B f fuel t s).pages.length
        = (RunPaging readText reviews B f fuel t s).calls.countP Call.succeeded ∧
      (RunPaging readText reviews B f fuel t s).consumer
        = consumerAfter f s (RunPaging readText reviews B f fuel t s).pages ∧
      (∀ k call js, (RunPaging readText reviews B f fuel t s).calls.get? k = some call →
        call.response = .ok js →
        ∃ page, (RunPaging readText reviews B f fuel t s).pages.get? k = some page ∧
          decodeLoop readText (GetJSONArray js [0]) [] = .ok page.results ∧
          page.token = GetJSONValue js [1, 1] ∧
          page.stop = (f (consumerAfter f s
            ((RunPaging readText reviews B f fuel t s).pages.take k)) page.results).2) ∧
      (∀ k page, (RunPaging readText reviews B f fuel t s).pages.get? k = some page →
        ∃ call js, (RunPaging readText reviews B f fuel t s).calls.get? k = some call ∧
          call.response = .ok js ∧
          decodeLoop readText (GetJSONArray js [0]) [] = .ok page.results) := by
  unfold RunPaging at hnp ⊢
  simp only at hnp ⊢
  obtain ⟨hcons, hcount⟩ := pagingLoop_consumer readText (clampNumber reviews) B f fuel t s
    (initialPayload (clampNumber reviews))
  refine ⟨hcount hnp, hcons, ?_, ?_⟩
  · intro k call js hk hok
    rcases pagingLoop_calls_ok readText _ B f fuel t s _ k call js hk hok with
      ⟨page, hp, hd, htok⟩ | ⟨p, hp, _⟩
    · obtain ⟨_, hstop, _⟩ := pagingLoop_pages readText _ B f fuel t s _ k page hp
      exact ⟨page, hp, hd, htok, hstop⟩
    · exact absurd hp (hnp p)
  · intro k page hp
    obtain ⟨⟨call, js, h1, h2, h3, _⟩, _⟩ := pagingLoop_pages readText _ B f fuel t s _ k page hp
    exact ⟨call, js, h1, h2, h3⟩

/-- An instance: a run whose second page is empty invokes the consumer
twice. -/
theorem RunPaging_consumer_invocations_witness :
    (RunPaging sampleReader sampleReviews scripted collect 5
        [.ok (response [alignedRecord] "t1"), .ok (response [] "t2")] []).pages.length
      = (RunPaging sampleReader sampleReviews scripted collect 5
        [.ok (response [alignedRecord] "t1"), .ok (response [] "t2")] []).calls.countP
          Call.succeeded :=
  (RunPaging_consumer_invocations sampleReader sampleReviews scripted collect 5
    [.ok (response [alignedRecord] "t1"), .ok (response [] "t2")] []
    (fun p hp => by
      rw [show (RunPaging sampleReader sampleReviews scripted collect 5
        [.ok (response [alignedRecord] "t1"), .ok (response [] "t2")] []).outcome
          = Outcome.returned none from rfl] at hp
      cases hp)).1

/-! ## Numbers, instants, `New` and `Review.URL` -/

/-- C14: in a Review returned by `Parse`, Score and Useful are the integers
found at paths `"2"` and `"6"` (integers of the 64-bit range), and they are 0
when the path is absent or holds a value that is not numeric: null, a boolean,
a nested array, or a string that is not an optional sign followed by one or
more digits (a string without any digit, or a text such as `"12abc"` or
`"1.5"`); in short they are 0 whenever the text read at the path is not
numeric. -/
theorem Parse_score_useful (review : JSON) (rv : Review)
    (h : Parse review = .ok (some rv)) :
    ((∀ n, valueAt review [2] = some (.num n) → - 2 ^ 63 ≤ n → n < 2 ^ 63 → rv.Score = n) ∧
      (valueAt review [2] = none → rv.Score = 0) ∧
      (valueAt review [2] = some .null → rv.Score = 0) ∧
      (∀ b, valueAt review [2] = some (.bool b) → rv.Score = 0) ∧
      (∀ s, valueAt review [2] = some (.str s) → (∀ c ∈ s.data, c.isDigit = false) →
        rv.Score = 0) ∧
      (∀ s, valueAt review [2] = some (.str s) → isNumeral s = false → rv.Score = 0) ∧
      (isNumeral (GetJSONValue review [2]) = false → rv.Score = 0) ∧
      (∀ xs, valueAt review [2] = some (.arr xs) → rv.Score = 0)) ∧
    ((∀ n, valueAt review [6] = some (.num n) → - 2 ^ 63 ≤ n → n < 2 ^ 63 → rv.Useful = n) ∧
      (valueAt review [6] = none → rv.Useful = 0) ∧
      (valueAt review [6] = some .null → rv.Useful = 0) ∧
      (∀ b, valueAt review [6] = some (.bool b) → rv.Useful = 0) ∧
      (∀ s, valueAt review [6] = some (.str s) → (∀ c ∈ s.data, c.isDigit = false) →
        rv.Useful = 0) ∧
      (∀ s, valueAt review [6] = some (.str s) → isNumeral s = false → rv.Useful = 0) ∧
      (isNumeral (GetJSONValue review [6]) = false → rv.Useful = 0) ∧
      (∀ xs, valueAt review [6] = some (.arr xs) → rv.Useful = 0)) := by
  have key : ∀ path, (∀ n, valueAt review path = some (.num n) → - 2 ^ 63 ≤ n → n < 2 ^ 63 →
        parseInt (GetJSONValue review path) = n) ∧
      (valueAt review path = none → parseInt (GetJSONValue review path) = 0) ∧
      (valueAt review path = some .null → parseInt (GetJSONValue review path) = 0) ∧
      (∀ b, valueAt review path = some (.bool b) →
        parseInt (GetJSONValue review path) = 0) ∧
      (∀ s, valueAt review path = some (.str s) → (∀ c ∈ s.data, c.isDigit = false) →
        parseInt (GetJSONValue review path) = 0) ∧
      (∀ s, valueAt review path = some (.str s) → isNumeral s = false →
        parseInt (GetJSONValue review path) = 0) ∧
      (isNumeral (GetJSONValue review path) = false →
        parseInt (GetJSONValue review path) = 0) ∧
      (∀ xs, valueAt review path = some (.arr xs) →
        parseInt (GetJSONValue review path) = 0) := by
    intro path
    refine ⟨?_, ?_, ?_, ?_, ?_, ?_, ?_, ?_⟩
    · intro n hv h1 h2
      rw [GetJSONValue_num review path n hv]
      exact parseInt_toString n ⟨h1, h2⟩
    · intro hv
      rw [GetJSONValue_absent review path hv]
      exact parseInt_empty
    · intro hv
      have : GetJSONValue review path = "" := by simp [GetJSONValue, hv, JSON.asString]
      rw [this]
      exact parseInt_empty
    · intro b hv
      have : GetJSONValue review path = if b then "true" else "false" := by
        simp [GetJSONValue, hv, JSON.asString, JSON.raw]
      rw [this]
      cases b <;> rfl
    · intro s hv hs
      rw [GetJSONValue_str review path s hv]
      exact parseInt_no_digit s hs
    · intro s hv hs
      rw [GetJSONValue_str review path s hv]
      exact parseInt_of_not_numeral s hs
    · intro hs
      exact parseInt_of_not_numeral _ hs
    · intro xs hv
      exact parseInt_GetJSONValue_arr review path xs hv
  obtain ⟨htext, _⟩ := Parse_some_inv review rv h
  rw [Parse_eq, if_neg htext] at h
  cases hc : criteriaLoop (GetJSONArray review [12, 0]) [] with
  | error p => rw [hc] at h; cases h
  | ok c =>
    rw [hc] at h
    simp only [Except.ok.injEq, Option.some.injEq] at h
    subst h
    exact ⟨key [2], key [6]⟩

/-- Witness of C14 on `alignedRecord`, whose path `"2"` holds 5, and on
`textScoreRecord`, whose paths `"2"` and `"6"` hold the texts `"12abc"` and
`"1.5"`. -/
theorem Parse_score_useful_witness :
    (Parse alignedRecord = .ok (some alignedReview) ∧ alignedReview.Score = 5) ∧
      (Parse textScoreRecord = .ok (some textScoreReview) ∧
        textScoreReview.Score = 0 ∧ textScoreReview.Useful = 0) :=
  ⟨⟨by rfl, (Parse_score_useful alignedRecord alignedReview (by rfl)).1.1 5 (by rfl)
      (by decide) (by decide)⟩,
    by rfl,
    (Parse_score_useful textScoreRecord textScoreReview (by rfl)).1.2.2.2.2.2.1 "12abc"
      (by rfl) (by decide),
    (Parse_score_useful textScoreRecord textScoreReview (by rfl)).2.2.2.2.2.2.1 "1.5"
      (by rfl) (by decide)⟩

/-- C15: in a Review returned by `Parse`, Timestamp and ReplyTimestamp are the
instants `time.Unix(n, 0)` for the integers `n` (of the 64-bit range) found at
paths `"5.0"` and `"7.2.0"`, and the instant `time.Unix(0, 0)` when the path is
absent. -/
theorem Parse_timestamps (review : JSON) (rv : Review)
    (h : Parse review = .ok (some rv)) :
    (∀ n, valueAt review [5, 0] = some (.num n) → - 2 ^ 63 ≤ n → n < 2 ^ 63 →
        rv.Timestamp = { sec := n, nsec := 0 }) ∧
      (valueAt review [5, 0] = none → rv.Timestamp = { sec := 0, nsec := 0 }) ∧
      (∀ n, valueAt review [7, 2, 0] = some (.num n) → - 2 ^ 63 ≤ n → n < 2 ^ 63 →
        rv.ReplyTimestamp = { sec := n, nsec := 0 }) ∧
      (valueAt review [7, 2, 0] = none → rv.ReplyTimestamp = { sec := 0, nsec := 0 }) := by
  obtain ⟨htext, _⟩ := Parse_some_inv review rv h
  rw [Parse_eq, if_neg htext] at h
  cases hc : criteriaLoop (GetJSONArray review [12, 0]) [] with
  | error p => rw [hc] at h; cases h
  | ok c =>
    rw [hc] at h
    simp only [Except.ok.injEq, Option.some.injEq] at h
    subst h
    refine ⟨?_, ?_, ?_, ?_⟩
    · intro n hv h1 h2
      simp only [Unix]
      rw [GetJSONValue_num review _ n hv, parseInt_toString n ⟨h1, h2⟩]
    · intro hv
      simp only [Unix]
      rw [GetJSONValue_absent review _ hv, parseInt_empty]
    · intro n hv h1 h2
      simp only [Unix]
      rw [GetJSONValue_num review _ n hv, parseInt_toString n ⟨h1, h2⟩]
    · intro hv
      simp only [Unix]
      rw [GetJSONValue_absent review _ hv, parseInt_empty]

/-- Witness of C15 on `alignedRecord`, whose path `"5.0"` holds 1690000000. -/
theorem Parse_timestamps_witness :
    Parse alignedRecord = .ok (some alignedReview) ∧
      alignedReview.Timestamp = { sec := 1690000000, nsec := 0 } :=
  ⟨by rfl, (Parse_timestamps alignedRecord alignedReview (by rfl)).1 1690000000 (by rfl)
    (by decide) (by decide)⟩

/-- C17: `New` keeps the application identifier, the country and the language,
sets `Number` to 150 when it is given as 0 and keeps it otherwise (also above
150 and below 0), and sets `Sorting` to the helpfulness sort when it is given
as 0 and keeps it otherwise. -/
theorem New_defaults (SortHelpfulness : Int) (appID : String) (options : Options) :
    (New SortHelpfulness appID options).appID = appID ∧
      (New SortHelpfulness appID options).options.Number
        = (if options.Number = 0 then 150 else options.Number) ∧
      (New SortHelpfulness appID options).options.Sorting
        = (if options.Sorting = 0 then SortHelpfulness else options.Sorting) ∧
      (New SortHelpfulness appID options).options.Country = options.Country ∧
      (New SortHelpfulness appID options).options.Language = options.Language ∧
      (150 < options.Number → (New SortHelpfulness appID options).options.Number
        = options.Number) ∧
      (options.Number < 0 → (New SortHelpfulness appID options).options.Number
        = options.Number) := by
  unfold New
  simp only [maxNumberOfReviewsPerRequest]
  by_cases hn : options.Number = 0 <;> by_cases hs : options.Sorting = 0 <;>
    simp [hn, hs]

/-- C18: `Review.URL` is the empty string exactly when the ID of the Review is
empty, and otherwise is the address of the store followed by the application
identifier, `"&reviewId="` and the ID, both as given. -/
theorem Review_URL (r : Review) (appID : String) :
    (r.URL appID = "" ↔ r.ID = "") ∧
      (r.ID ≠ "" → r.URL appID
        = "https://play.google.com/store/apps/details?id=" ++ appID ++ "&reviewId=" ++ r.ID) := by
  unfold Review.URL
  by_cases h : r.ID = ""
  · simp [h]
  · simp only [ne_eq, h, not_false_eq_true, if_true, iff_false, forall_const, and_true]
    intro he
    have hd := congrArg String.data he
    simp [String.data_append] at hd

/-! ## Runs that a decoding failure interrupts -/

/-- C5: a run whose first answer, given by the transport without a failure,
has an empty continuation token and holds a record with an empty criteria
entry does not return success: it fails at run time in `Parse` after its one
call, and the consumer is not invoked. -/
theorem RunPaging_panics_on_terminal_page :
    GetJSONValue (response [shortCriterionRecord] "") [1, 1] = "" ∧
      (RunPaging sampleReader sampleReviews scripted collect 5
        [.ok (response [shortCriterionRecord] "")] []).outcome
        = .panicked (.indexOutOfRange 0 0) ∧
      (RunPaging sampleReader sampleReviews scripted collect 5
        [.ok (response [shortCriterionRecord] "")] []).calls.length = 1 ∧
      (RunPaging sampleReader sampleReviews scripted collect 5
        [.ok (response [shortCriterionRecord] "")] []).pages = [] := by
  refine ⟨?_, ?_, ?_, ?_⟩ <;> rfl

/-- C16: in a run whose second answer holds a record with an empty criteria
entry, the transport answers two calls and the consumer is invoked once: the
run fails at run time in `Parse` before the consumer is invoked for the second
page. -/
theorem RunPaging_panic_skips_consumer :
    (RunPaging sampleReader sampleReviews scripted collect 5
        [.ok (response [alignedRecord] "t1"), .ok (response [shortCriterionRecord] "t2")]
        []).calls.countP Call.succeeded = 2 ∧
      (RunPaging sampleReader sampleReviews scripted collect 5
        [.ok (response [alignedRecord] "t1"), .ok (response [shortCriterionRecord] "t2")]
        []).pages.length = 1 ∧
      (RunPaging sampleReader sampleReviews scripted collect 5
        [.ok (response [alignedRecord] "t1"), .ok (response [shortCriterionRecord] "t2")]
        []).outcome = .panicked (.indexOutOfRange 0 0) := by
  refine ⟨?_, ?_, ?_⟩ <;> rfl

end GooglePlayScraper
